import Mathlib

/-!
# A ledger chaincode: `src/finished/chaincode_finished.go`

Shallow embedding of the `SimpleChaincode` handlers (`Init`, `Invoke`, `Query`,
`write`, `read`, `transfer`) together with the library routines they call
(`strconv.Atoi`, `json.Marshal`, `json.Unmarshal`) and the state store they are
handed (`shim.ChaincodeStubInterface`).

Modelling conventions.

* A Go `string` is a Lean `String`, a Go `[]byte` is a `List Char`: byte strings
  are taken to be well-formed UTF-8 text and are represented by their sequence of
  code points.  The conversion `[]byte(s)` is `String.toList`.
* A Go `error` is an `Error`: either a value made by `errors.New` in the chaincode,
  or a value handed back by the host.  A handler result `([]byte, error)` is
  `Except Error (Option (List Char))`; `none` is the `nil` slice.
* Go's `int` is the 64-bit two's complement integer: arithmetic is carried out in
  `Int` and wrapped by `wrapInt`.
* The stub is a ledger (a partial map from keys to values) together with the
  history of the calls made on it and two failure oracles, which decide from that
  history whether the next `GetState` / `PutState` is refused by the host.  A
  `GetState` that is not refused returns the value under the key, `nil` when there is
  none; a `PutState` that is not refused replaces the value under the key, and a
  refused one leaves the ledger alone.
* `json.Unmarshal` is modelled for the target type `Account` in full: JSON syntax,
  string escapes, matching of object keys to fields, `null`, type errors.  The
  reader of nested values carries a bound on nesting; `parseDocument_fuel` shows
  that the bound in use never rejects a text.
* `fmt.Println` / `fmt.Printf` only log and are left out.
-/

namespace Chaincode

/-! ## Machine integers -/

/-- Smallest value of Go's `int`, on the 64-bit hosts the peer runs on. -/
def minInt : Int := -(2 ^ 63)

/-- Largest value of `int`. -/
def maxInt : Int := 2 ^ 63 - 1

/-- Whether an integer is representable as an `int`. -/
def inRange (x : Int) : Prop := minInt ≤ x ∧ x ≤ maxInt

instance (x : Int) : Decidable (inRange x) := by
  unfold inRange; exact inferInstance

/-- Two's complement wrap-around of a mathematical integer into `int`. -/
def wrapInt (x : Int) : Int := (x + 2 ^ 63) % 2 ^ 64 - 2 ^ 63

/-! ## `strconv` -/

/-- ASCII decimal digit test (`'0' <= c && c <= '9'`). -/
def isDigit (c : Char) : Bool := decide ('0'.toNat ≤ c.toNat) && decide (c.toNat ≤ '9'.toNat)

/-- Value of a run of decimal digits, most significant first, continuing from `acc`;
`none` when some character is not a digit. -/
def digitsValue : List Char → Nat → Option Nat
  | [], acc => some acc
  | c :: cs, acc =>
    if isDigit c then digitsValue cs (acc * 10 + (c.toNat - '0'.toNat)) else none

/-- Unsigned base-10 part of `strconv.ParseInt`: a non-empty run of digits. -/
def parseDecimal (cs : List Char) : Option Nat :=
  match cs with
  | [] => none
  | _ :: _ => digitsValue cs 0

/-- Model of `strconv.ParseInt(s, 10, 64)` on the characters of `s`: an optional sign,
at least one digit, nothing else, and a value that fits in 64 bits. -/
def parseInt (cs : List Char) : Except String Int :=
  match cs with
  | [] => .error "invalid syntax"
  | '-' :: ds =>
    match parseDecimal ds with
    | none => .error "invalid syntax"
    | some n => if (n : Int) ≤ 2 ^ 63 then .ok (-(n : Int)) else .error "value out of range"
  | '+' :: ds =>
    match parseDecimal ds with
    | none => .error "invalid syntax"
    | some n => if (n : Int) < 2 ^ 63 then .ok (n : Int) else .error "value out of range"
  | _ =>
    match parseDecimal cs with
    | none => .error "invalid syntax"
    | some n => if (n : Int) < 2 ^ 63 then .ok (n : Int) else .error "value out of range"

/-- Model of `strconv.Atoi`. -/
def Atoi (s : String) : Except String Int := parseInt s.toList

/-- Model of `strconv.Itoa` / `strconv.AppendInt(_, v, 10)`. -/
def formatInt (v : Int) : List Char :=
  if v < 0 then '-' :: Nat.toDigits 10 v.natAbs else Nat.toDigits 10 v.natAbs

/-! ## The state store handed in by the host -/

/-- A Go `error` value as the chaincode sees it: made on the spot by
`errors.New(msg)`, or returned by a call on the stub. -/
inductive Error where
  | new (msg : String)
  | host (msg : String)
  deriving DecidableEq, Repr

/-- One call made on the stub. -/
inductive Call where
  | getState (key : String)
  | putState (key : String) (value : List Char)
  deriving DecidableEq, Repr

/-- Model of `shim.ChaincodeStubInterface`, restricted to `GetState` and `PutState`.
`ledger` is the world state, `calls` the calls made so far (oldest first),
`getErr` / `putErr` say whether the host refuses the next call, given the history. -/
structure Stub where
  ledger : String → Option (List Char)
  calls : List Call
  getErr : List Call → String → Option String
  putErr : List Call → String → List Char → Option String

/-- The call `stub.GetState(key)`: the bytes under `key` (`nil` when there are none)
or the host's error. -/
def Stub.GetState (stub : Stub) (key : String) : Except Error (Option (List Char)) × Stub :=
  let stub1 := { stub with calls := stub.calls ++ [Call.getState key] }
  match stub.getErr stub.calls key with
  | some e => (.error (Error.host e), stub1)
  | none => (.ok (stub.ledger key), stub1)

/-- The call `stub.PutState(key, value)`: `none` (a `nil` error) and the updated
ledger, or the host's error and the ledger as it was. -/
def Stub.PutState (stub : Stub) (key : String) (value : List Char) : Option Error × Stub :=
  let stub1 := { stub with calls := stub.calls ++ [Call.putState key value] }
  match stub.putErr stub.calls key value with
  | some e => (some (Error.host e), stub1)
  | none => (none, { stub1 with ledger := fun k => if k = key then some value else stub.ledger k })

deriving instance DecidableEq for Except

/-- Result of a handler: Go's `([]byte, error)`. -/
abbrev Result := Except Error (Option (List Char))

/-! ## `encoding/json`, as far as `Account` needs it -/

/-- The record kept per account (`type Account struct`), with its JSON field names
`name` and `balance`. -/
structure Account where
  Name : String
  Balance : Int
  deriving DecidableEq, Repr

/-- JSON insignificant whitespace (`isSpace` of the scanner). -/
def isSpace (c : Char) : Bool := c = ' ' || c = '\t' || c = '\r' || c = '\n'

/-- Drop leading whitespace. -/
def skipSpace : List Char → List Char
  | [] => []
  | c :: cs => if isSpace c then skipSpace cs else c :: cs

/-- Value of one hexadecimal digit, either case. -/
def hexValue (c : Char) : Option Nat :=
  if '0'.toNat ≤ c.toNat ∧ c.toNat ≤ '9'.toNat then some (c.toNat - '0'.toNat)
  else if 'a'.toNat ≤ c.toNat ∧ c.toNat ≤ 'f'.toNat then some (c.toNat - 'a'.toNat + 10)
  else if 'A'.toNat ≤ c.toNat ∧ c.toNat ≤ 'F'.toNat then some (c.toNat - 'A'.toNat + 10)
  else none

/-- The character selected by a one-letter escape (`\"`, `\\`, `\/`, `\b`, `\f`, `\n`,
`\r`, `\t`); any other letter is a syntax error. -/
def simpleEscape (e : Char) : Option Char :=
  if e = '"' then some '"'
  else if e = '\\' then some '\\'
  else if e = '/' then some '/'
  else if e = 'b' then some (Char.ofNat 8)
  else if e = 'f' then some (Char.ofNat 12)
  else if e = 'n' then some '\n'
  else if e = 'r' then some '\r'
  else if e = 't' then some '\t'
  else none

/-- The Unicode replacement character U+FFFD (`unicode.ReplacementChar`). -/
def replacementChar : Char := Char.ofNat 0xFFFD

/-- One item of a string literal: a character (written literally or by a one-letter
escape), or the 16-bit code unit of a `\uXXXX` escape. -/
inductive StrItem where
  | chr (c : Char)
  | unit (v : Nat)
  deriving DecidableEq, Repr

/-- Put an item in front of the items of the rest of a string literal. -/
def consItem (t : StrItem) (r : Option (List StrItem × List Char)) :
    Option (List StrItem × List Char) :=
  match r with
  | none => none
  | some (ts, rest) => some (t :: ts, rest)

/-- Where the scanner stands inside a string literal: between items
(`stateInString`), after a backslash (`stateInStringEsc`), or inside a `\u` escape
with `n` hexadecimal digits read, of value `acc` (`stateInStringEscU`, `…U1`, `…U12`,
`…U123`). -/
inductive StrState where
  | inString
  | esc
  | escU (n : Nat) (acc : Nat)
  deriving DecidableEq, Repr

/-- Scan a string literal, one character at a time, up to its closing quote: its items
and the input after the closing quote.  A control character, an unknown escape, a
`\u` not followed by four hexadecimal digits or an unterminated literal is a syntax
error. -/
def scanString : StrState → List Char → Option (List StrItem × List Char)
  | _, [] => none
  | StrState.inString, c :: cs =>
    if c = '"' then some ([], cs)
    else if c = '\\' then scanString StrState.esc cs
    else if c.toNat < 0x20 then none
    else consItem (StrItem.chr c) (scanString StrState.inString cs)
  | StrState.esc, c :: cs =>
    if c = 'u' then scanString (StrState.escU 0 0) cs
    else
      match simpleEscape c with
      | some x => consItem (StrItem.chr x) (scanString StrState.inString cs)
      | none => none
  | StrState.escU n acc, c :: cs =>
    match hexValue c with
    | none => none
    | some d =>
      if n = 3 then consItem (StrItem.unit (acc * 16 + d)) (scanString StrState.inString cs)
      else scanString (StrState.escU (n + 1) (acc * 16 + d)) cs

/-- Decode the items of a string literal (`unquote`): a `\u` escape of a high surrogate
followed by one of a low surrogate is one character, any other surrogate escape is
U+FFFD. -/
def decodeItems : List StrItem → List Char
  | [] => []
  | StrItem.chr c :: ts => c :: decodeItems ts
  | StrItem.unit v :: ts =>
    let lone := replacementChar :: decodeItems ts
    if 0xD800 ≤ v ∧ v < 0xE000 then
      match ts with
      | StrItem.unit w :: ts2 =>
        if v < 0xDC00 ∧ 0xDC00 ≤ w ∧ w < 0xE000 then
          Char.ofNat ((v - 0xD800) * 0x400 + (w - 0xDC00) + 0x10000) :: decodeItems ts2
        else lone
      | _ => lone
    else Char.ofNat v :: decodeItems ts

/-- Read a string literal whose opening quote has been consumed: its decoded text and
the input after the closing quote. -/
def unquote (cs : List Char) : Option (List Char × List Char) :=
  match scanString StrState.inString cs with
  | some (ts, rest) => some (decodeItems ts, rest)
  | none => none

/-- Longest run of decimal digits at the front, and what follows it. -/
def spanDigits : List Char → List Char × List Char
  | [] => ([], [])
  | c :: cs =>
    if isDigit c then ((spanDigits cs).1.cons c, (spanDigits cs).2) else ([], c :: cs)

/-- Integer part of a number literal: `0`, or a non-zero digit followed by digits. -/
def scanIntPart (cs : List Char) : Option (List Char × List Char) :=
  match cs with
  | [] => none
  | c :: rest =>
    if c = '0' then some (['0'], rest)
    else if isDigit c then some (spanDigits (c :: rest))
    else none

/-- Optional fraction of a number literal: `.` and at least one digit. -/
def scanFrac (cs : List Char) : Option (List Char × List Char) :=
  match cs with
  | [] => some ([], [])
  | c :: rest =>
    if c = '.' then
      (if (spanDigits rest).1 = [] then none
       else some ('.' :: (spanDigits rest).1, (spanDigits rest).2))
    else some ([], c :: rest)

/-- Digits of an exponent, after `e`/`E` and the optional sign: at least one. -/
def scanExpDigits (pre : List Char) (cs : List Char) : Option (List Char × List Char) :=
  if (spanDigits cs).1 = [] then none else some (pre ++ (spanDigits cs).1, (spanDigits cs).2)

/-- Optional exponent of a number literal. -/
def scanExp (cs : List Char) : Option (List Char × List Char) :=
  match cs with
  | [] => some ([], [])
  | c :: rest =>
    if c = 'e' ∨ c = 'E' then
      match rest with
      | [] => none
      | s :: rest1 =>
        if s = '+' ∨ s = '-' then scanExpDigits [c, s] rest1 else scanExpDigits [c] (s :: rest1)
    else some ([], c :: rest)

/-- Read an unsigned number literal (`int frac? exp?`): its text and what follows. -/
def scanUnsigned (cs : List Char) : Option (List Char × List Char) :=
  match scanIntPart cs with
  | none => none
  | some (ip, r1) =>
    match scanFrac r1 with
    | none => none
    | some (fp, r2) =>
      match scanExp r2 with
      | none => none
      | some (ep, r3) => some (ip ++ fp ++ ep, r3)

/-- Read a number literal (`-? int frac? exp?`): its text and what follows. -/
def scanNumber (cs : List Char) : Option (List Char × List Char) :=
  match cs with
  | [] => none
  | c :: rest =>
    if c = '-' then
      match scanUnsigned rest with
      | some (lit, r) => some ('-' :: lit, r)
      | none => none
    else scanUnsigned (c :: rest)

/-- What the decoder keeps of a JSON value: its kind, the text of a number and the
decoded text of a string.  The contents of nested arrays and objects are only
checked for syntax, since no field of `Account` is an array or an object. -/
inductive JValue where
  | null
  | bool (b : Bool)
  | number (lit : List Char)
  | string (s : List Char)
  | array
  | object
  deriving DecidableEq, Repr

/-- Read one of the literals `true`, `false` and `null`. -/
def scanLiteral (cs : List Char) : Option (JValue × List Char) :=
  match cs with
  | 't' :: 'r' :: 'u' :: 'e' :: r => some (JValue.bool true, r)
  | 'f' :: 'a' :: 'l' :: 's' :: 'e' :: r => some (JValue.bool false, r)
  | 'n' :: 'u' :: 'l' :: 'l' :: r => some (JValue.null, r)
  | _ => none

mutual
/-- Read one JSON value at the front of the input (no leading whitespace).  The first
argument bounds the number of nested calls. -/
def parseValue : Nat → List Char → Option (JValue × List Char)
  | 0, _ => none
  | fuel + 1, cs =>
    match cs with
    | [] => none
    | c :: rest =>
      if c = '\x7b' then
        match parseObject fuel rest with
        | some (_, r) => some (JValue.object, r)
        | none => none
      else if c = '[' then
        match parseArray fuel rest with
        | some r => some (JValue.array, r)
        | none => none
      else if c = '"' then
        match unquote rest with
        | some (s, r) => some (JValue.string s, r)
        | none => none
      else if c = 't' ∨ c = 'f' ∨ c = 'n' then scanLiteral (c :: rest)
      else
        match scanNumber (c :: rest) with
        | some (lit, r) => some (JValue.number lit, r)
        | none => none
/-- Read an object whose opening brace has been consumed: its members in order (key
text and value) and the input after the closing brace. -/
def parseObject : Nat → List Char → Option (List (List Char × JValue) × List Char)
  | 0, _ => none
  | fuel + 1, cs =>
    match skipSpace cs with
    | [] => none
    | c :: rest => if c = '\x7d' then some ([], rest) else parseMembers fuel (c :: rest)
/-- Read `"key" : value` pairs separated by commas, up to the closing brace. -/
def parseMembers : Nat → List Char → Option (List (List Char × JValue) × List Char)
  | 0, _ => none
  | fuel + 1, cs =>
    match skipSpace cs with
    | [] => none
    | q :: rest =>
      if q = '"' then
        match unquote rest with
        | none => none
        | some (key, r1) =>
          match skipSpace r1 with
          | [] => none
          | colon :: r2 =>
            if colon = ':' then
              match parseValue fuel (skipSpace r2) with
              | none => none
              | some (v, r3) =>
                match skipSpace r3 with
                | [] => none
                | d :: r4 =>
                  if d = ',' then
                    match parseMembers fuel r4 with
                    | some (ms, r5) => some ((key, v) :: ms, r5)
                    | none => none
                  else if d = '\x7d' then some ([(key, v)], r4)
                  else none
            else none
      else none
/-- Read an array whose opening bracket has been consumed: the input after the closing
bracket. -/
def parseArray : Nat → List Char → Option (List Char)
  | 0, _ => none
  | fuel + 1, cs =>
    match skipSpace cs with
    | [] => none
    | c :: rest => if c = ']' then some rest else parseItems fuel (c :: rest)
/-- Read values separated by commas, up to the closing bracket. -/
def parseItems : Nat → List Char → Option (List Char)
  | 0, _ => none
  | fuel + 1, cs =>
    match parseValue fuel (skipSpace cs) with
    | none => none
    | some (_, r1) =>
      match skipSpace r1 with
      | [] => none
      | d :: r2 =>
        if d = ',' then parseItems fuel r2
        else if d = ']' then some r2
        else none
end

/-- A whole JSON text, read with the given bound on nesting: one value, surrounded by
optional whitespace and nothing else (what `checkValid` accepts).  For an object the
members are returned as well. -/
def parseDocumentWith (fuel : Nat) (data : List Char) :
    Option (JValue × List (List Char × JValue)) :=
  match skipSpace data with
  | [] => none
  | c :: rest =>
    if c = '\x7b' then
      match parseObject fuel rest with
      | some (ms, r) => if skipSpace r = [] then some (JValue.object, ms) else none
      | none => none
    else
      match parseValue fuel (c :: rest) with
      | some (v, r) => if skipSpace r = [] then some (v, []) else none
      | none => none

/-- A whole JSON text.  A chain of three nested calls of the reader consumes at least
one character, so three times the length of the text bounds the nesting
(`parseDocument_fuel` below: no larger bound accepts more). -/
def parseDocument (data : List Char) : Option (JValue × List (List Char × JValue)) :=
  parseDocumentWith (3 * data.length + 3) data

/-- The two ways `json.Unmarshal` fails: `*json.SyntaxError` and
`*json.UnmarshalTypeError`. -/
inductive UnmarshalError where
  | syntaxError
  | typeError
  deriving DecidableEq, Repr

/-- Upper-case form of an ASCII letter; other characters are left alone. -/
def asciiUpper (c : Char) : Char :=
  if 'a'.toNat ≤ c.toNat ∧ c.toNat ≤ 'z'.toNat then Char.ofNat (c.toNat - 32) else c

/-- Whether an object key selects the struct field with JSON name `field`: an exact
match, or failing that a match up to the case of ASCII letters (the decoder's
`equalFold` for a field name made of the letters of `name` and `balance`). -/
def keyMatches (key : List Char) (field : String) : Bool :=
  decide (key = field.toList) || decide (key.map asciiUpper = field.toList.map asciiUpper)

/-- Store one object member into the struct.  A key that selects no field is skipped
with its value; `null` leaves the field as it is; a value of the wrong kind, or a
number that is not a 64-bit integer, is a type error. -/
def storeMember (acc : Account) (m : List Char × JValue) : Except UnmarshalError Account :=
  if keyMatches m.1 "name" then
    match m.2 with
    | JValue.string s => .ok { acc with Name := String.mk s }
    | JValue.null => .ok acc
    | _ => .error UnmarshalError.typeError
  else if keyMatches m.1 "balance" then
    match m.2 with
    | JValue.number lit =>
      match parseInt lit with
      | .ok n => .ok { acc with Balance := n }
      | .error _ => .error UnmarshalError.typeError
    | JValue.null => .ok acc
    | _ => .error UnmarshalError.typeError
  else .ok acc

/-- Store the members of an object in order; a later member overrides an earlier one. -/
def storeMembers (acc : Account) : List (List Char × JValue) → Except UnmarshalError Account
  | [] => .ok acc
  | m :: ms =>
    match storeMember acc m with
    | .ok acc1 => storeMembers acc1 ms
    | .error e => .error e

/-- Model of `json.Unmarshal(data, &v)` for `v` of type `Account`: the struct after
decoding, or the error.  The text must be valid JSON; an object fills the fields it
names, `null` changes nothing, any other value is a type error. -/
def Unmarshal (data : Option (List Char)) (v : Account) : Except UnmarshalError Account :=
  match parseDocument (data.getD []) with
  | none => .error UnmarshalError.syntaxError
  | some (JValue.object, ms) => storeMembers v ms
  | some (JValue.null, _) => .ok v
  | some (_, _) => .error UnmarshalError.typeError

/-- Lower-case hexadecimal digit (`hex[n]` with `hex = "0123456789abcdef"`). -/
def hexDigit (n : Nat) : Char := Nat.digitChar n

/-- How the encoder writes one character of a string: `"` and `\` behind a backslash,
newline, carriage return and tab as `\n`, `\r`, `\t`, the other control characters and
`<`, `>`, `&` as `\u00XX`, U+2028 and U+2029 as the escapes `\u2028` and `\u2029`, and every
other character as itself (`\b` and `\f` are written `\u0008` and `\u000c`). -/
def escapeChar (c : Char) : List Char :=
  if c = '\\' ∨ c = '"' then ['\\', c]
  else if c = '\n' then ['\\', 'n']
  else if c = '\r' then ['\\', 'r']
  else if c = '\t' then ['\\', 't']
  else if c.toNat < 0x20 ∨ c = '<' ∨ c = '>' ∨ c = '&' then
    ['\\', 'u', '0', '0', hexDigit (c.toNat / 16), hexDigit (c.toNat % 16)]
  else if c.toNat = 0x2028 then ['\\', 'u', '2', '0', '2', '8']
  else if c.toNat = 0x2029 then ['\\', 'u', '2', '0', '2', '9']
  else [c]

/-- A string as a JSON string literal (`encodeState.string`, HTML escaping on). -/
def quote (s : List Char) : List Char :=
  '"' :: (s.flatMap escapeChar ++ ['"'])

/-- The JSON text of an account: `\x7b"name":<string>,"balance":<integer>\x7d`. -/
def encodeAccount (a : Account) : List Char :=
  "\x7b\"name\":".toList ++ quote a.Name.toList ++ ",\"balance\":".toList
    ++ formatInt a.Balance ++ "\x7d".toList

/-- Model of `json.Marshal(v)` for `v` of type `Account`; it has no failing case. -/
def Marshal (v : Account) : Except String (List Char) := .ok (encodeAccount v)

/-! ## The chaincode -/

/-- The account with all fields zero (`var acc Account`). -/
def Account.zero : Account := { Name := "", Balance := 0 }

/-- `Init resets all the things`: seeds the three accounts, each with balance 1000. -/
def Init (stub : Stub) (_function : String) (args : List String) : Result × Stub :=
  if args.length ≠ 0 then
    (.error (Error.new "No arguments required"), stub)
  else
    let account1 : Account := { Name := "Vatsala", Balance := 1000 }
    let account2 : Account := { Name := "Harish", Balance := 1000 }
    let account3 : Account := { Name := "Narayan", Balance := 1000 }
    match Marshal account1 with
    | .error _ => (.error (Error.new "Errors while creating json string for account 1"), stub)
    | .ok b1 =>
      match stub.PutState "Vatsala" b1 with
      | (some err, stub1) => (.error err, stub1)
      | (none, stub1) =>
        match Marshal account2 with
        | .error _ => (.error (Error.new "Errors while creating json string for account 2"), stub1)
        | .ok b2 =>
          match stub1.PutState "Harish" b2 with
          | (some err, stub2) => (.error err, stub2)
          | (none, stub2) =>
            match Marshal account3 with
            | .error _ =>
              (.error (Error.new "Errors while creating json string for account 3"), stub2)
            | .ok b3 =>
              match stub2.PutState "Narayan" b3 with
              | (some err, stub3) => (.error err, stub3)
              | (none, stub3) => (.ok none, stub3)

/-- The handler `write`: invoke function to write a key/value pair. -/
def write (stub : Stub) (args : List String) : Result × Stub :=
  match args with
  | [key, value] =>
    match stub.PutState key value.toList with
    | (some err, stub1) => (.error err, stub1)
    | (none, stub1) => (.ok none, stub1)
  | _ =>
    (.error
      (Error.new "Incorrect number of arguments. Expecting 2. name of the key and value to set"),
      stub)

/-- The handler `read`: query function to read a key/value pair. -/
def read (stub : Stub) (args : List String) : Result × Stub :=
  match args with
  | [key] =>
    match stub.GetState key with
    | (.error _, stub1) =>
      (.error (Error.new ("\x7b\"Error\":\"Failed to get state for " ++ key ++ "\"\x7d")), stub1)
    | (.ok valAsbytes, stub1) => (.ok valAsbytes, stub1)
  | _ =>
    (.error (Error.new "Incorrect number of arguments. Expecting name of the key to query"), stub)

/-- The handler `transfer`: function to transfer funds from one account to another. -/
def transfer (stub : Stub) (args : List String) : Result × Stub :=
  match args with
  | [arg0, arg1, arg2] =>
    match stub.GetState arg0 with
    | (.error _, stub1) =>
      (.error (Error.new ("\x7b\"Error\":\"Failed to get state for " ++ arg0 ++ "\"\x7d")), stub1)
    | (.ok accFromAsBytes, stub1) =>
      match Unmarshal accFromAsBytes Account.zero with
      | .error _ => (.error (Error.new "Failed to marshal string to struct of accFrom"), stub1)
      | .ok accFrom =>
        match stub1.GetState arg1 with
        | (.error _, stub2) =>
          (.error (Error.new ("\x7b\"Error\":\"Failed to get state for " ++ arg1 ++ "\"\x7d")),
            stub2)
        | (.ok accToAsBytes, stub2) =>
          match Unmarshal accToAsBytes Account.zero with
          | .error _ => (.error (Error.new "Failed to marshal string to struct of accTo"), stub2)
          | .ok accTo =>
            match Atoi arg2 with
            | .error _ => (.error (Error.new "Enter an integer value in the 'Amount'"), stub2)
            | .ok amount =>
              if accFrom.Balance < amount then
                (.error (Error.new "Insufficient Balance"), stub2)
              else
                let accFrom1 : Account :=
                  { accFrom with Balance := wrapInt (accFrom.Balance - amount) }
                let accTo1 : Account :=
                  { accTo with Balance := wrapInt (accTo.Balance + amount) }
                match Marshal accFrom1 with
                | .error _ =>
                  (.error (Error.new "Errors while creating json string for account 1"), stub2)
                | .ok b =>
                  match stub2.PutState arg0 b with
                  | (some err, stub3) => (.error err, stub3)
                  | (none, stub3) =>
                    match Marshal accTo1 with
                    | .error _ =>
                      (.error (Error.new "Errors while creating json string for account 1"), stub3)
                    | .ok b1 =>
                      match stub3.PutState arg1 b1 with
                      | (some err, stub4) => (.error err, stub4)
                      | (none, stub4) => (.ok none, stub4)
  | _ => (.error (Error.new "Incorrect number of arguments. Expecting 3"), stub)

/-- The entry point `Invoke`: dispatches on the function name. -/
def Invoke (stub : Stub) (function : String) (args : List String) : Result × Stub :=
  if function = "init" then Init stub "init" args
  else if function = "write" then write stub args
  else if function = "transfer" then transfer stub args
  else (.error (Error.new ("Received unknown function invocation: " ++ function)), stub)

/-- The entry point `Query`: dispatches on the function name. -/
def Query (stub : Stub) (function : String) (args : List String) : Result × Stub :=
  if function = "read" then read stub args
  else (.error (Error.new ("Received unknown function query: " ++ function)), stub)

/-! ## Vocabulary of the statements -/

/-- The host never refuses a `PutState`. -/
def Stub.putNeverFails (stub : Stub) : Prop :=
  ∀ history key value, stub.putErr history key value = none

/-- The `PutState` calls of a history, in order. -/
def putsOf : List Call → List (String × List Char)
  | [] => []
  | Call.getState _ :: cs => putsOf cs
  | Call.putState k v :: cs => (k, v) :: putsOf cs

/-- The host never refuses a `GetState` of `key`. -/
def Stub.readable (stub : Stub) (key : String) : Prop :=
  ∀ history, stub.getErr history key = none

/-- The host accepts the `GetState` of `key` when it is the next call made. -/
def Stub.acceptsGet (stub : Stub) (key : String) : Prop :=
  stub.getErr stub.calls key = none

/-- The stub holds the account `acc` under `key`: reading `key` is not refused, and the
value under it deserializes to `acc`. -/
def holdsAccount (stub : Stub) (key : String) (acc : Account) : Prop :=
  stub.readable key ∧ Unmarshal (stub.ledger key) Account.zero = .ok acc

/-- The item the scanner reads back from the encoder's text of one character. -/
def itemOf (c : Char) : StrItem :=
  if c = '\\' ∨ c = '"' ∨ c = '\n' ∨ c = '\r' ∨ c = '\t' then StrItem.chr c
  else if c.toNat < 0x20 ∨ c = '<' ∨ c = '>' ∨ c = '&' ∨ c.toNat = 0x2028 ∨
      c.toNat = 0x2029 then
    StrItem.unit c.toNat
  else StrItem.chr c

/-! ## Example stores -/

/-- A ledger given by its entries. -/
def ledgerOf (entries : List (String × String)) : String → Option (List Char) :=
  fun k => (entries.lookup k).map String.toList

/-- A stub over the given entries, with no call made yet, whose host refuses nothing. -/
def stubOf (entries : List (String × String)) : Stub :=
  { ledger := ledgerOf entries
    calls := []
    getErr := fun _ _ => none
    putErr := fun _ _ _ => none }

/-- Accounts `A` and `B` with 1000 each. -/
def stubAB : Stub :=
  stubOf [("A", "\x7b\"name\":\"A\",\"balance\":1000\x7d"),
          ("B", "\x7b\"name\":\"B\",\"balance\":1000\x7d")]

/-- Account `A` with 1000 and account `B` with 100. -/
def stubSmallB : Stub :=
  stubOf [("A", "\x7b\"name\":\"A\",\"balance\":1000\x7d"),
          ("B", "\x7b\"name\":\"B\",\"balance\":100\x7d")]

/-- Account `A` with 1000 and account `B` with the largest balance an `int` holds. -/
def stubFullB : Stub :=
  stubOf [("A", "\x7b\"name\":\"A\",\"balance\":1000\x7d"),
          ("B", "\x7b\"name\":\"B\",\"balance\":9223372036854775807\x7d")]

/-- Accounts `A` and `B` with 1000 each, on a host that refuses every `PutState`. -/
def stubReadOnly : Stub :=
  { stubAB with putErr := fun _ _ _ => some "ledger is read-only" }

/-- The ledger after the first example transfer: 700 under `A` and 1300 under `B`. -/
def stubAfter : Stub :=
  stubOf [("A", "\x7b\"name\":\"A\",\"balance\":700\x7d"),
          ("B", "\x7b\"name\":\"B\",\"balance\":1300\x7d")]

/-- A ledger with nothing in it, on a host that refuses nothing. -/
def stubEmpty : Stub := stubOf []

/-- A member of a JSON object that carries the wrong type for the field it selects: a
`name` that is neither a string nor `null`, or a `balance` that is neither `null` nor
a number written as an integer that fits in an `int`. -/
def wrongType (m : List Char × JValue) : Prop :=
  (keyMatches m.1 "name" = true ∧ m.2 ≠ JValue.null ∧ ∀ s, m.2 ≠ JValue.string s) ∨
  (keyMatches m.1 "balance" = true ∧ m.2 ≠ JValue.null ∧
    ∀ lit n, m.2 = JValue.number lit → parseInt lit ≠ .ok n)

/-- A value that is a JSON object with a member of the wrong type. -/
def malformedRecord (data : Option (List Char)) : Prop :=
  ∃ ms, parseDocument (data.getD []) = some (JValue.object, ms) ∧ ∃ m ∈ ms, wrongType m

/-- Under `A` a record without `balance`, under `B` a record without `name`. -/
def stubPartial : Stub :=
  stubOf [("A", "\x7b\"name\":\"A\"\x7d"), ("B", "\x7b\"balance\":1000\x7d")]

/-- Under `A` a record whose balance is a string, under `B` a well-formed record. -/
def stubBadType : Stub :=
  stubOf [("A", "\x7b\"name\":\"A\",\"balance\":\"1000\"\x7d"),
          ("B", "\x7b\"name\":\"B\",\"balance\":1000\x7d")]

/-- A ledger with nothing in it, on a host that refuses every `GetState`. -/
def stubUnreadable : Stub :=
  { stubEmpty with getErr := fun _ _ => some "ledger is unavailable" }

/-- Accounts `A` and `B` with 1000 each, on a host that accepts the first `PutState` and
refuses every later one. -/
def stubOnePut : Stub :=
  { stubAB with
    putErr := fun history _ _ => if putsOf history = [] then none else some "ledger is full" }

/-- Account `A` with the largest balance an `int` holds and account `B` with 1000. -/
def stubFullA : Stub :=
  stubOf [("A", "\x7b\"name\":\"A\",\"balance\":9223372036854775807\x7d"),
          ("B", "\x7b\"name\":\"B\",\"balance\":1000\x7d")]

/-! # Lemmas -/

/-! ## Decimal digits -/

theorem toDigitsCore_append (f : Nat) : ∀ (n : Nat) (ds : List Char),
    Nat.toDigitsCore 10 f n ds = Nat.toDigitsCore 10 f n [] ++ ds := by
  induction f with
  | zero => intro n ds; simp [Nat.toDigitsCore]
  | succ f ih =>
    intro n ds
    simp only [Nat.toDigitsCore]
    by_cases h : n / 10 = 0
    · simp [h]
    · simp only [h, if_false]
      rw [ih (n / 10) (Nat.digitChar (n % 10) :: ds), ih (n / 10) [Nat.digitChar (n % 10)]]
      simp

theorem toDigitsCore_fuel (f : Nat) : ∀ (n : Nat), n < f → ∀ ds : List Char,
    Nat.toDigitsCore 10 f n ds = Nat.toDigitsCore 10 (n + 1) n ds := by
  induction f using Nat.strong_induction_on with
  | _ f ih =>
    intro n hn ds
    cases f with
    | zero => omega
    | succ f =>
      simp only [Nat.toDigitsCore]
      by_cases h : n / 10 = 0
      · simp [h]
      · simp only [h, if_false]
        have h1 : n / 10 < n := Nat.div_lt_self (by omega) (by decide)
        rw [ih f (by omega) (n / 10) (by omega)]
        by_cases h2 : n = f
        · subst h2; rw [ih n (by omega) (n / 10) h1]
        · rw [ih n (by omega) (n / 10) h1]

theorem toDigits_small (n : Nat) (h : n < 10) : Nat.toDigits 10 n = [Nat.digitChar n] := by
  have h0 : n / 10 = 0 := Nat.div_eq_of_lt h
  simp [Nat.toDigits, Nat.toDigitsCore, h0, Nat.mod_eq_of_lt h]

theorem toDigits_step (n : Nat) (h : 10 ≤ n) :
    Nat.toDigits 10 n = Nat.toDigits 10 (n / 10) ++ [Nat.digitChar (n % 10)] := by
  have h0 : n / 10 ≠ 0 := by omega
  have h1 : n / 10 < n := Nat.div_lt_self (by omega) (by decide)
  have e : ∀ (f m : Nat) (ds : List Char), Nat.toDigitsCore 10 (f + 1) m ds =
      if m / 10 = 0 then Nat.digitChar (m % 10) :: ds
      else Nat.toDigitsCore 10 f (m / 10) (Nat.digitChar (m % 10) :: ds) := fun _ _ _ => rfl
  unfold Nat.toDigits
  rw [e n n [], if_neg h0, toDigitsCore_append, toDigitsCore_fuel n (n / 10) h1]

theorem digitChar_isDigit (k : Nat) (h : k < 10) :
    isDigit (Nat.digitChar k) = true ∧ (Nat.digitChar k).toNat - 48 = k := by
  interval_cases k <;> decide

theorem digitsValue_append (xs : List Char) (d : Char) : ∀ acc : Nat,
    digitsValue (xs ++ [d]) acc =
      (digitsValue xs acc).bind
        (fun v => if isDigit d then some (v * 10 + (d.toNat - '0'.toNat)) else none) := by
  induction xs with
  | nil => intro acc; simp [digitsValue]
  | cons x xs ih =>
    intro acc
    by_cases hx : isDigit x = true
    · simp [digitsValue, hx, ih]
    · simp [digitsValue, hx]

theorem digitsValue_toDigits (n : Nat) : digitsValue (Nat.toDigits 10 n) 0 = some n := by
  induction n using Nat.strong_induction_on with
  | _ n ih =>
    by_cases h : n < 10
    · rw [toDigits_small n h]
      have hd := digitChar_isDigit n h
      simp [digitsValue, hd.1, hd.2]
    · have h1 : n / 10 < n := Nat.div_lt_self (by omega) (by decide)
      rw [toDigits_step n (by omega), digitsValue_append, ih (n / 10) h1]
      have hd := digitChar_isDigit (n % 10) (Nat.mod_lt _ (by decide))
      have hd2 := hd.2
      simp [hd.1]
      omega

theorem toDigits_ne_nil (n : Nat) : Nat.toDigits 10 n ≠ [] := by
  by_cases h : n < 10
  · rw [toDigits_small n h]; simp
  · rw [toDigits_step n (by omega)]; simp

theorem toDigits_all_digits (n : Nat) : ∀ c ∈ Nat.toDigits 10 n, isDigit c = true := by
  induction n using Nat.strong_induction_on with
  | _ n ih =>
    by_cases h : n < 10
    · rw [toDigits_small n h]
      intro c hc
      simp at hc
      subst hc
      exact (digitChar_isDigit n h).1
    · have h1 : n / 10 < n := Nat.div_lt_self (by omega) (by decide)
      rw [toDigits_step n (by omega)]
      intro c hc
      rcases List.mem_append.mp hc with hc | hc
      · exact ih _ h1 c hc
      · simp at hc
        subst hc
        exact (digitChar_isDigit (n % 10) (Nat.mod_lt _ (by decide))).1

/-- The decimal text of a positive number does not start with `0`. -/
theorem toDigits_head (n : Nat) (hn : 0 < n) :
    ∃ c cs, Nat.toDigits 10 n = c :: cs ∧ c ≠ '0' := by
  induction n using Nat.strong_induction_on with
  | _ n ih =>
    by_cases h : n < 10
    · rw [toDigits_small n h]
      refine ⟨_, [], rfl, ?_⟩
      interval_cases n <;> decide
    · have h1 : n / 10 < n := Nat.div_lt_self (by omega) (by decide)
      obtain ⟨c, cs, hc, hne⟩ := ih (n / 10) h1 (by omega)
      rw [toDigits_step n (by omega), hc]
      exact ⟨c, cs ++ [Nat.digitChar (n % 10)], rfl, hne⟩


theorem spanDigits_append (ds : List Char) (c : Char) (tail : List Char)
    (hds : ∀ d ∈ ds, isDigit d = true) (hc : isDigit c = false) :
    spanDigits (ds ++ c :: tail) = (ds, c :: tail) := by
  induction ds with
  | nil => simp [spanDigits, hc]
  | cons d ds ih =>
    have hd : isDigit d = true := hds d (List.mem_cons_self _ _)
    have ih1 := ih (fun x hx => hds x (List.mem_cons_of_mem _ hx))
    simp [spanDigits, hd, ih1]

/-- Reading back the decimal text of a natural number that is followed by a closing
brace. -/
theorem scanIntPart_toDigits (n : Nat) (tail : List Char) :
    scanIntPart (Nat.toDigits 10 n ++ '\x7d' :: tail) =
      some (Nat.toDigits 10 n, '\x7d' :: tail) := by
  by_cases h0 : n = 0
  · subst h0
    rfl
  · obtain ⟨c, cs, hc, hne⟩ := toDigits_head n (Nat.pos_of_ne_zero h0)
    have hall := toDigits_all_digits n
    have hspan := spanDigits_append (Nat.toDigits 10 n) '\x7d' tail hall (by decide)
    rw [hc] at hall hspan ⊢
    have hcd : isDigit c = true := hall c (List.mem_cons_self _ _)
    simp only [List.cons_append] at hspan ⊢
    simp [scanIntPart, hne, hcd, hspan]

theorem scanNumber_formatInt (b : Int) (tail : List Char) :
    scanNumber (formatInt b ++ '\x7d' :: tail) = some (formatInt b, '\x7d' :: tail) := by
  unfold formatInt
  by_cases hb : b < 0
  · simp only [hb, if_true, List.cons_append]
    simp [scanNumber, scanUnsigned, scanIntPart_toDigits, scanFrac, scanExp]
  · simp only [hb, if_false]
    obtain ⟨c, cs, hc⟩ : ∃ c cs, Nat.toDigits 10 b.natAbs = c :: cs := by
      cases h : Nat.toDigits 10 b.natAbs with
      | nil => exact absurd h (toDigits_ne_nil _)
      | cons c cs => exact ⟨c, cs, rfl⟩
    have hcd : isDigit c = true := by
      have := toDigits_all_digits b.natAbs c (by rw [hc]; exact List.mem_cons_self _ _)
      exact this
    have hne : c ≠ '-' := by
      intro h; rw [h] at hcd; exact absurd hcd (by decide)
    have hs := scanIntPart_toDigits b.natAbs tail
    rw [hc] at hs ⊢
    simp only [List.cons_append] at hs ⊢
    simp [scanNumber, scanUnsigned, hne, hs, scanFrac, scanExp]

theorem parseInt_formatInt (b : Int) (hb : inRange b) : parseInt (formatInt b) = .ok b := by
  unfold formatInt
  obtain ⟨hlo, hhi⟩ := hb
  simp only [minInt, maxInt] at hlo hhi
  obtain ⟨c, cs, hc⟩ : ∃ c cs, Nat.toDigits 10 b.natAbs = c :: cs := by
    cases h : Nat.toDigits 10 b.natAbs with
    | nil => exact absurd h (toDigits_ne_nil _)
    | cons c cs => exact ⟨c, cs, rfl⟩
  have hv := digitsValue_toDigits b.natAbs
  have hpd : parseDecimal (Nat.toDigits 10 b.natAbs) = some b.natAbs := by
    rw [hc] at hv ⊢
    simpa [parseDecimal] using hv
  by_cases hneg : b < 0
  · simp only [hneg, if_true]
    simp only [parseInt, hpd]
    have h1 : (b.natAbs : Int) ≤ 2 ^ 63 := by omega
    have h2 : -(b.natAbs : Int) = b := by omega
    rw [if_pos h1, h2]
  · simp only [hneg, if_false]
    have hcd : isDigit c = true :=
      toDigits_all_digits b.natAbs c (by rw [hc]; exact List.mem_cons_self _ _)
    have hne1 : c ≠ '-' := by
      intro h; rw [h] at hcd; exact absurd hcd (by decide)
    have hne2 : c ≠ '+' := by
      intro h; rw [h] at hcd; exact absurd hcd (by decide)
    have h1 : (b.natAbs : Int) < 2 ^ 63 := by omega
    have h2 : (b.natAbs : Int) = b := by omega
    rw [hc] at hpd ⊢
    unfold parseInt
    split
    · rename_i heq; cases heq
    · rename_i heq; cases heq; exact absurd rfl hne1
    · rename_i heq; cases heq; exact absurd rfl hne2
    · simp only [hpd]
      rw [if_pos h1, h2]


/-! ## String literals -/

theorem scanString_plain (c : Char) (X : List Char) (h1 : c ≠ '"') (h2 : c ≠ '\\')
    (h3 : ¬ c.toNat < 0x20) :
    scanString .inString (c :: X) = consItem (.chr c) (scanString .inString X) := by
  rw [scanString]
  simp only [h1, h2, h3, if_false]

theorem scanString_simple (e x : Char) (X : List Char) (he : e ≠ 'u')
    (hx : simpleEscape e = some x) :
    scanString .inString ('\\' :: e :: X) = consItem (.chr x) (scanString .inString X) := by
  rw [scanString, if_neg (by decide), if_pos rfl, scanString, if_neg he, hx]

theorem scanString_u (h1 h2 h3 h4 : Char) (X : List Char) (a b c d : Nat)
    (ha : hexValue h1 = some a) (hb : hexValue h2 = some b) (hc : hexValue h3 = some c)
    (hd : hexValue h4 = some d) :
    scanString .inString ('\\' :: 'u' :: h1 :: h2 :: h3 :: h4 :: X) =
      consItem (.unit ((((0 * 16 + a) * 16 + b) * 16 + c) * 16 + d))
        (scanString .inString X) := by
  rw [scanString, if_neg (by decide), if_pos rfl, scanString, if_pos rfl]
  rw [scanString, ha]; simp only [show ¬ (0 = 3) by decide, if_false]
  rw [scanString, hb]; simp only [show ¬ (0 + 1 = 3) by decide, if_false]
  rw [scanString, hc]; simp only [show ¬ (0 + 1 + 1 = 3) by decide, if_false]
  rw [scanString, hd]; simp only [show (0 + 1 + 1 + 1 = 3) by decide, if_true]

theorem hexValue_hexDigit : ∀ n : Fin 16, hexValue (hexDigit n.val) = some n.val := by
  decide

theorem scanString_escapeChar (c : Char) (X : List Char) :
    scanString .inString (escapeChar c ++ X) = consItem (itemOf c) (scanString .inString X) := by
  unfold escapeChar itemOf
  by_cases h1 : c = '\\'
  · subst h1; exact scanString_simple _ _ X (by decide) (by decide)
  by_cases h2 : c = '"'
  · subst h2; exact scanString_simple _ _ X (by decide) (by decide)
  by_cases h3 : c = '\n'
  · subst h3; exact scanString_simple 'n' _ X (by decide) (by decide)
  by_cases h4 : c = '\r'
  · subst h4; exact scanString_simple 'r' _ X (by decide) (by decide)
  by_cases h5 : c = '\t'
  · subst h5; exact scanString_simple 't' _ X (by decide) (by decide)
  simp only [h1, h2, h3, h4, h5, false_or, if_false]
  by_cases h6 : c.toNat < 0x20 ∨ c = '<' ∨ c = '>' ∨ c = '&'
  · have hlt : c.toNat < 128 := by
      rcases h6 with h | h | h | h
      · omega
      · subst h; decide
      · subst h; decide
      · subst h; decide
    have e1 := hexValue_hexDigit ⟨c.toNat / 16, by omega⟩
    have e2 := hexValue_hexDigit ⟨c.toNat % 16, by omega⟩
    simp only at e1 e2
    have hs := scanString_u '0' '0' (hexDigit (c.toNat / 16)) (hexDigit (c.toNat % 16)) X
      0 0 (c.toNat / 16) (c.toNat % 16) (by decide) (by decide) e1 e2
    have hval : (((0 * 16 + 0) * 16 + 0) * 16 + c.toNat / 16) * 16 + c.toNat % 16 = c.toNat := by
      omega
    rw [hval] at hs
    have h6' : c.toNat < 0x20 ∨ c = '<' ∨ c = '>' ∨ c = '&' ∨ c.toNat = 0x2028 ∨
        c.toNat = 0x2029 := by
      rcases h6 with h | h | h | h
      · exact Or.inl h
      · exact Or.inr (Or.inl h)
      · exact Or.inr (Or.inr (Or.inl h))
      · exact Or.inr (Or.inr (Or.inr (Or.inl h)))
    rw [if_pos h6, if_pos h6']
    exact hs
  rw [if_neg h6]
  by_cases h7 : c.toNat = 0x2028
  · have hs := scanString_u '2' '0' '2' '8' X 2 0 2 8 (by decide) (by decide) (by decide)
      (by decide)
    rw [if_pos h7, if_pos (by simp [h7])]
    rw [h7]
    exact hs
  by_cases h8 : c.toNat = 0x2029
  · have hs := scanString_u '2' '0' '2' '9' X 2 0 2 9 (by decide) (by decide) (by decide)
      (by decide)
    rw [if_neg h7, if_pos h8, if_pos (by simp [h8])]
    rw [h8]
    exact hs
  have h9 : ¬ (c.toNat < 0x20 ∨ c = '<' ∨ c = '>' ∨ c = '&' ∨ c.toNat = 0x2028 ∨
      c.toNat = 0x2029) := by
    intro h
    rcases h with h | h | h | h | h | h
    · exact h6 (Or.inl h)
    · exact h6 (Or.inr (Or.inl h))
    · exact h6 (Or.inr (Or.inr (Or.inl h)))
    · exact h6 (Or.inr (Or.inr (Or.inr h)))
    · exact h7 h
    · exact h8 h
  rw [if_neg h7, if_neg h8, if_neg h9]
  exact scanString_plain c X h2 h1 (fun h => h6 (Or.inl h))

theorem decodeItems_itemOf (c : Char) (ts : List StrItem) :
    decodeItems (itemOf c :: ts) = c :: decodeItems ts := by
  unfold itemOf
  split
  · rfl
  split
  · rename_i h
    have hns : ¬ (0xD800 ≤ c.toNat ∧ c.toNat < 0xE000) := by
      rcases h with h | h | h | h | h | h
      · omega
      · subst h; decide
      · subst h; decide
      · subst h; decide
      · omega
      · omega
    rcases ts with _ | ⟨t, ts2⟩
    · simp [decodeItems, hns, Char.ofNat_toNat]
    · cases t <;> simp [decodeItems, hns, Char.ofNat_toNat]
  · rfl

/-- Reading back a string literal written by the encoder. -/
theorem unquote_quote (s : List Char) (tail : List Char) :
    unquote (s.flatMap escapeChar ++ '"' :: tail) = some (s, tail) := by
  have key : scanString .inString (s.flatMap escapeChar ++ '"' :: tail) =
        some (s.map itemOf, tail) ∧ decodeItems (s.map itemOf) = s := by
    induction s with
    | nil => exact ⟨rfl, rfl⟩
    | cons c s ih =>
      constructor
      · rw [List.flatMap_cons, List.append_assoc, scanString_escapeChar, ih.1]
        rfl
      · rw [List.map_cons, decodeItems_itemOf, ih.2]
  unfold unquote
  rw [key.1]
  simp only [key.2]


/-! ## Reading back an encoded account -/

theorem skipSpace_cons (c : Char) (cs : List Char) (h : isSpace c = false) :
    skipSpace (c :: cs) = c :: cs := by
  simp [skipSpace, h]

theorem formatInt_head (b : Int) :
    ∃ c cs, formatInt b = c :: cs ∧ (c = '-' ∨ isDigit c = true) := by
  unfold formatInt
  by_cases hb : b < 0
  · simp only [hb, if_true]
    exact ⟨'-', _, rfl, Or.inl rfl⟩
  · simp only [hb, if_false]
    cases h : Nat.toDigits 10 b.natAbs with
    | nil => exact absurd h (toDigits_ne_nil _)
    | cons c cs =>
      exact ⟨c, cs, rfl, Or.inr (toDigits_all_digits b.natAbs c
        (by rw [h]; exact List.mem_cons_self _ _))⟩

theorem parseValue_string (fuel : Nat) (s tail : List Char) :
    parseValue (fuel + 1) ('"' :: (s.flatMap escapeChar ++ '"' :: tail)) =
      some (JValue.string s, tail) := by
  rw [parseValue]
  simp [unquote_quote]

theorem parseValue_number (fuel : Nat) (b : Int) (tail : List Char) :
    parseValue (fuel + 1) (formatInt b ++ '\x7d' :: tail) =
      some (JValue.number (formatInt b), '\x7d' :: tail) := by
  have hs := scanNumber_formatInt b tail
  obtain ⟨c, cs, hc, hh⟩ := formatInt_head b
  rw [hc] at hs ⊢
  simp only [List.cons_append] at hs ⊢
  have hne : c ≠ '\x7b' ∧ c ≠ '[' ∧ c ≠ '"' ∧ c ≠ 't' ∧ c ≠ 'f' ∧ c ≠ 'n' := by
    rcases hh with h | h
    · subst h; decide
    · refine ⟨?_, ?_, ?_, ?_, ?_, ?_⟩ <;> intro h' <;> rw [h'] at h <;>
        exact absurd h (by decide)
  rw [parseValue]
  simp [hne.1, hne.2.1, hne.2.2.1, hne.2.2.2.1, hne.2.2.2.2.1, hne.2.2.2.2.2, hs]


/-- The text after the opening brace of an encoded account. -/
theorem encodeAccount_eq (a : Account) :
    encodeAccount a = '\x7b' :: '"' :: ("name".toList.flatMap escapeChar ++ '"' :: ':' :: '"' ::
      (a.Name.toList.flatMap escapeChar ++ '"' :: ',' :: '"' ::
        ("balance".toList.flatMap escapeChar ++ '"' :: ':' ::
          (formatInt a.Balance ++ '\x7d' :: [])))) := by
  simp [encodeAccount, quote, escapeChar]

theorem skipSpace_formatInt (b : Int) (tail : List Char) :
    skipSpace (formatInt b ++ tail) = formatInt b ++ tail := by
  obtain ⟨c, cs, hc, hh⟩ := formatInt_head b
  rw [hc]
  apply skipSpace_cons
  rcases hh with h | h
  · subst h; decide
  · cases hsp : isSpace c with
    | false => rfl
    | true =>
      simp only [isSpace, Bool.or_eq_true, decide_eq_true_eq] at hsp
      rcases hsp with ((h' | h') | h') | h' <;> rw [h'] at h <;> exact absurd h (by decide)

theorem parseMembers_encode (fuel : Nat) (name : List Char) (b : Int) :
    parseMembers (fuel + 3) ('"' :: ("name".toList.flatMap escapeChar ++ '"' :: ':' :: '"' ::
      (name.flatMap escapeChar ++ '"' :: ',' :: '"' ::
        ("balance".toList.flatMap escapeChar ++ '"' :: ':' ::
          (formatInt b ++ '\x7d' :: []))))) =
      some ([("name".toList, JValue.string name), ("balance".toList, JValue.number (formatInt b))],
        []) := by
  have inner : parseMembers (fuel + 2) ('"' ::
        ("balance".toList.flatMap escapeChar ++ '"' :: ':' :: (formatInt b ++ '\x7d' :: []))) =
      some ([("balance".toList, JValue.number (formatInt b))], []) := by
    rw [parseMembers, skipSpace_cons _ _ (by decide)]
    simp only [if_true, unquote_quote]
    rw [skipSpace_cons _ _ (by decide)]
    simp only [if_true, skipSpace_formatInt, parseValue_number]
    rw [skipSpace_cons _ _ (by decide)]
    simp
  rw [parseMembers, skipSpace_cons _ _ (by decide)]
  simp only [if_true, unquote_quote]
  rw [skipSpace_cons _ _ (by decide)]
  simp only [if_true]
  rw [skipSpace_cons _ _ (by decide), parseValue_string]
  simp only []
  rw [skipSpace_cons _ _ (by decide)]
  simp only [if_true, inner]

theorem parseDocument_encode (a : Account) :
    parseDocument (encodeAccount a) = some (JValue.object,
      [("name".toList, JValue.string a.Name.toList),
       ("balance".toList, JValue.number (formatInt a.Balance))]) := by
  have hlen : 1 ≤ (encodeAccount a).length := by
    rw [encodeAccount_eq]; simp
  unfold parseDocument parseDocumentWith
  obtain ⟨n, hn⟩ : ∃ n, 3 * (encodeAccount a).length + 3 = n + 3 + 1 + 1 :=
    ⟨3 * (encodeAccount a).length - 2, by omega⟩
  rw [hn]
  rw [encodeAccount_eq, skipSpace_cons _ _ (by decide)]
  simp only [if_true]
  rw [parseObject, skipSpace_cons _ _ (by decide)]
  simp only [show ¬ ('"' = '\x7d') by decide, if_false]
  rw [parseMembers_encode]
  simp [skipSpace]

/-- Decoding the encoder's text of an account gives the account back, whenever the
balance is a 64-bit integer. -/
theorem Unmarshal_Marshal (a v : Account) (hb : inRange a.Balance) :
    Unmarshal (some (encodeAccount a)) v = .ok a := by
  unfold Unmarshal
  simp only [Option.getD_some, parseDocument_encode]
  have h1 : keyMatches ['n', 'a', 'm', 'e'] "name" = true := by decide
  have h2 : keyMatches ['b', 'a', 'l', 'a', 'n', 'c', 'e'] "name" = false := by decide
  have h3 : keyMatches ['b', 'a', 'l', 'a', 'n', 'c', 'e'] "balance" = true := by decide
  simp [storeMembers, storeMember, h1, h2, h3, parseInt_formatInt a.Balance hb]


/-! ## The bound on nesting is never the reason for a failure -/

/-- More fuel does not change a result. -/
theorem parse_fuel_succ (n : Nat) :
    (∀ cs r, parseValue n cs = some r → parseValue (n + 1) cs = some r) ∧
    (∀ cs r, parseObject n cs = some r → parseObject (n + 1) cs = some r) ∧
    (∀ cs r, parseMembers n cs = some r → parseMembers (n + 1) cs = some r) ∧
    (∀ cs r, parseArray n cs = some r → parseArray (n + 1) cs = some r) ∧
    (∀ cs r, parseItems n cs = some r → parseItems (n + 1) cs = some r) := by
  induction n with
  | zero =>
    refine ⟨?_, ?_, ?_, ?_, ?_⟩ <;> intro cs r h
    · simp [parseValue] at h
    · simp [parseObject] at h
    · simp [parseMembers] at h
    · simp [parseArray] at h
    · simp [parseItems] at h
  | succ n ih =>
    obtain ⟨ihV, ihO, ihM, ihA, ihI⟩ := ih
    refine ⟨?_, ?_, ?_, ?_, ?_⟩
    · intro cs r h
      cases cs with
      | nil => simp [parseValue] at h
      | cons c rest =>
        rw [parseValue] at h ⊢
        by_cases h1 : c = '\x7b'
        · simp only [h1, if_true] at h ⊢
          cases ho : parseObject n rest with
          | none => simp [ho] at h
          | some p => rw [ho] at h; rw [ihO rest p ho]; exact h
        · simp only [h1, if_false] at h ⊢
          by_cases h2 : c = '['
          · simp only [h2, if_true] at h ⊢
            cases ho : parseArray n rest with
            | none => simp [ho] at h
            | some p => rw [ho] at h; rw [ihA rest p ho]; exact h
          · simp only [h2, if_false] at h ⊢
            exact h
    · intro cs r h
      rw [parseObject] at h ⊢
      cases hs : skipSpace cs with
      | nil => simp [hs] at h
      | cons c rest =>
        simp only [hs] at h ⊢
        by_cases h1 : c = '\x7d'
        · simp only [h1, if_true] at h ⊢; exact h
        · simp only [h1, if_false] at h ⊢; exact ihM _ _ h
    · intro cs r h
      rw [parseMembers] at h ⊢
      cases hs : skipSpace cs with
      | nil => simp [hs] at h
      | cons q rest =>
        simp only [hs] at h ⊢
        by_cases h1 : q = '"'
        · simp only [h1, if_true] at h ⊢
          cases hu : unquote rest with
          | none => simp [hu] at h
          | some kr =>
            obtain ⟨key, r1⟩ := kr
            simp only [hu] at h ⊢
            cases hs1 : skipSpace r1 with
            | nil => simp [hs1] at h
            | cons colon r2 =>
              simp only [hs1] at h ⊢
              by_cases h2 : colon = ':'
              · simp only [h2, if_true] at h ⊢
                cases hv : parseValue n (skipSpace r2) with
                | none => simp [hv] at h
                | some vr =>
                  obtain ⟨v, r3⟩ := vr
                  rw [hv] at h
                  rw [ihV _ _ hv]
                  simp only at h ⊢
                  cases hs3 : skipSpace r3 with
                  | nil => simp [hs3] at h
                  | cons d r4 =>
                    simp only [hs3] at h ⊢
                    by_cases h3 : d = ','
                    · simp only [h3, if_true] at h ⊢
                      cases hm : parseMembers n r4 with
                      | none => simp [hm] at h
                      | some mr => rw [hm] at h; rw [ihM _ _ hm]; exact h
                    · simp only [h3, if_false] at h ⊢
                      exact h
              · simp [h2] at h
        · simp [h1] at h
    · intro cs r h
      rw [parseArray] at h ⊢
      cases hs : skipSpace cs with
      | nil => simp [hs] at h
      | cons c rest =>
        simp only [hs] at h ⊢
        by_cases h1 : c = ']'
        · simp only [h1, if_true] at h ⊢; exact h
        · simp only [h1, if_false] at h ⊢; exact ihI _ _ h
    · intro cs r h
      rw [parseItems] at h ⊢
      cases hv : parseValue n (skipSpace cs) with
      | none => simp [hv] at h
      | some vr =>
        obtain ⟨v, r1⟩ := vr
        rw [hv] at h
        rw [ihV _ _ hv]
        simp only at h ⊢
        cases hs1 : skipSpace r1 with
        | nil => simp [hs1] at h
        | cons d r2 =>
          simp only [hs1] at h ⊢
          by_cases h3 : d = ','
          · simp only [h3, if_true] at h ⊢
            exact ihI _ _ h
          · simp only [h3, if_false] at h ⊢
            exact h


theorem parse_fuel_le (n m : Nat) (h : n ≤ m) :
    (∀ cs r, parseValue n cs = some r → parseValue m cs = some r) ∧
    (∀ cs r, parseObject n cs = some r → parseObject m cs = some r) ∧
    (∀ cs r, parseMembers n cs = some r → parseMembers m cs = some r) ∧
    (∀ cs r, parseArray n cs = some r → parseArray m cs = some r) ∧
    (∀ cs r, parseItems n cs = some r → parseItems m cs = some r) := by
  induction h with
  | refl =>
    exact ⟨fun _ _ h => h, fun _ _ h => h, fun _ _ h => h, fun _ _ h => h, fun _ _ h => h⟩
  | step _ ih =>
    obtain ⟨a1, a2, a3, a4, a5⟩ := ih
    obtain ⟨b1, b2, b3, b4, b5⟩ := parse_fuel_succ _
    exact ⟨fun cs r h => b1 cs r (a1 cs r h), fun cs r h => b2 cs r (a2 cs r h),
      fun cs r h => b3 cs r (a3 cs r h), fun cs r h => b4 cs r (a4 cs r h),
      fun cs r h => b5 cs r (a5 cs r h)⟩

theorem skipSpace_length (cs : List Char) : (skipSpace cs).length ≤ cs.length := by
  induction cs with
  | nil => simp [skipSpace]
  | cons c cs ih =>
    unfold skipSpace
    split
    · exact Nat.le_succ_of_le ih
    · exact Nat.le_refl _

theorem consItem_eq_some (t : StrItem) (r : Option (List StrItem × List Char))
    (ts : List StrItem) (rest : List Char) (h : consItem t r = some (ts, rest)) :
    ∃ ts1, r = some (ts1, rest) := by
  cases r with
  | none => simp [consItem] at h
  | some p =>
    obtain ⟨ts1, rest1⟩ := p
    simp only [consItem, Option.some.injEq, Prod.mk.injEq] at h
    exact ⟨ts1, by rw [h.2]⟩

theorem scanString_length (cs : List Char) : ∀ (st : StrState) (ts : List StrItem)
    (rest : List Char), scanString st cs = some (ts, rest) → rest.length < cs.length := by
  induction cs with
  | nil => intro st ts rest h; simp [scanString] at h
  | cons c cs ih =>
    intro st ts rest h
    have step : ∀ st1 ts1, scanString st1 cs = some (ts1, rest) →
        rest.length < (c :: cs).length := fun st1 ts1 h1 =>
      Nat.lt_succ_of_lt (ih st1 ts1 rest h1)
    cases st with
    | inString =>
      rw [scanString] at h
      by_cases h1 : c = '"'
      · simp only [h1, if_true, Option.some.injEq, Prod.mk.injEq] at h
        rw [← h.2]; exact Nat.lt_succ_self _
      · simp only [h1, if_false] at h
        by_cases h2 : c = '\\'
        · simp only [h2, if_true] at h
          exact step _ _ h
        · simp only [h2, if_false] at h
          by_cases h3 : c.toNat < 0x20
          · simp [h3] at h
          · simp only [h3, if_false] at h
            obtain ⟨ts1, h4⟩ := consItem_eq_some _ _ _ _ h
            exact step _ _ h4
    | esc =>
      rw [scanString] at h
      by_cases h1 : c = 'u'
      · simp only [h1, if_true] at h
        exact step _ _ h
      · simp only [h1, if_false] at h
        cases hs : simpleEscape c with
        | none => simp [hs] at h
        | some x =>
          simp only [hs] at h
          obtain ⟨ts1, h4⟩ := consItem_eq_some _ _ _ _ h
          exact step _ _ h4
    | escU n acc =>
      rw [scanString] at h
      cases hv : hexValue c with
      | none => simp [hv] at h
      | some d =>
        simp only [hv] at h
        by_cases h1 : n = 3
        · simp only [h1, if_true] at h
          obtain ⟨ts1, h4⟩ := consItem_eq_some _ _ _ _ h
          exact step _ _ h4
        · simp only [h1, if_false] at h
          exact step _ _ h

theorem unquote_length (cs s rest : List Char) (h : unquote cs = some (s, rest)) :
    rest.length < cs.length := by
  unfold unquote at h
  cases hs : scanString StrState.inString cs with
  | none => simp [hs] at h
  | some p =>
    obtain ⟨ts, rest1⟩ := p
    simp only [hs, Option.some.injEq, Prod.mk.injEq] at h
    rw [← h.2]
    exact scanString_length cs _ ts rest1 hs

theorem spanDigits_length (cs : List Char) : (spanDigits cs).2.length ≤ cs.length := by
  induction cs with
  | nil => simp [spanDigits]
  | cons c cs ih =>
    unfold spanDigits
    split
    · exact Nat.le_succ_of_le ih
    · exact Nat.le_refl _

theorem scanIntPart_length (cs lit rest : List Char) (h : scanIntPart cs = some (lit, rest)) :
    rest.length < cs.length := by
  cases cs with
  | nil => simp [scanIntPart] at h
  | cons c cs =>
    unfold scanIntPart at h
    simp only at h
    by_cases h1 : c = '0'
    · simp only [h1, if_true, Option.some.injEq, Prod.mk.injEq] at h
      rw [← h.2]; exact Nat.lt_succ_self _
    · simp only [h1, if_false] at h
      by_cases h2 : isDigit c = true
      · simp only [h2, if_true, Option.some.injEq] at h
        have hl := spanDigits_length cs
        have : (spanDigits (c :: cs)).2 = (spanDigits cs).2 := by
          simp [spanDigits, h2]
        have e : rest = (spanDigits (c :: cs)).2 := by rw [h]
        rw [e, this]
        exact Nat.lt_succ_of_le hl
      · simp [h2] at h

theorem scanFrac_length (cs lit rest : List Char) (h : scanFrac cs = some (lit, rest)) :
    rest.length ≤ cs.length := by
  cases cs with
  | nil =>
    simp only [scanFrac, Option.some.injEq, Prod.mk.injEq] at h
    rw [← h.2]
  | cons c cs =>
    unfold scanFrac at h
    simp only at h
    by_cases h1 : c = '.'
    · simp only [h1, if_true] at h
      by_cases h2 : (spanDigits cs).1 = []
      · simp [h2] at h
      · simp only [h2, if_false, Option.some.injEq, Prod.mk.injEq] at h
        rw [← h.2]
        exact Nat.le_succ_of_le (spanDigits_length cs)
    · simp only [h1, if_false, Option.some.injEq, Prod.mk.injEq] at h
      rw [← h.2]

theorem scanExpDigits_length (pre cs lit rest : List Char)
    (h : scanExpDigits pre cs = some (lit, rest)) : rest.length ≤ cs.length := by
  unfold scanExpDigits at h
  by_cases h2 : (spanDigits cs).1 = []
  · simp [h2] at h
  · simp only [h2, if_false, Option.some.injEq, Prod.mk.injEq] at h
    rw [← h.2]
    exact spanDigits_length cs

theorem scanExp_length (cs lit rest : List Char) (h : scanExp cs = some (lit, rest)) :
    rest.length ≤ cs.length := by
  cases cs with
  | nil =>
    simp only [scanExp, Option.some.injEq, Prod.mk.injEq] at h
    rw [← h.2]
  | cons c cs =>
    unfold scanExp at h
    simp only at h
    by_cases h1 : c = 'e' ∨ c = 'E'
    · simp only [h1, if_true] at h
      cases cs with
      | nil => simp at h
      | cons s cs1 =>
        simp only at h
        by_cases h2 : s = '+' ∨ s = '-'
        · simp only [h2, if_true] at h
          have := scanExpDigits_length _ _ _ _ h
          simp only [List.length_cons]
          omega
        · simp only [h2, if_false] at h
          have := scanExpDigits_length _ _ _ _ h
          simp only [List.length_cons] at this ⊢
          omega
    · simp only [h1, if_false, Option.some.injEq, Prod.mk.injEq] at h
      rw [← h.2]

theorem scanUnsigned_length (cs lit rest : List Char) (h : scanUnsigned cs = some (lit, rest)) :
    rest.length < cs.length := by
  unfold scanUnsigned at h
  cases hi : scanIntPart cs with
  | none => simp [hi] at h
  | some p1 =>
    obtain ⟨ip, r1⟩ := p1
    have l1 := scanIntPart_length _ _ _ hi
    simp only [hi] at h
    cases hf : scanFrac r1 with
    | none => simp [hf] at h
    | some p2 =>
      obtain ⟨fp, r2⟩ := p2
      have l2 := scanFrac_length _ _ _ hf
      simp only [hf] at h
      cases he : scanExp r2 with
      | none => simp [he] at h
      | some p3 =>
        obtain ⟨ep, r3⟩ := p3
        have l3 := scanExp_length _ _ _ he
        simp only [he, Option.some.injEq, Prod.mk.injEq] at h
        rw [← h.2]
        omega

theorem scanNumber_length (cs lit rest : List Char) (h : scanNumber cs = some (lit, rest)) :
    rest.length < cs.length := by
  cases cs with
  | nil => simp [scanNumber] at h
  | cons c cs1 =>
    unfold scanNumber at h
    simp only at h
    by_cases h1 : c = '-'
    · simp only [h1, if_true] at h
      cases hu : scanUnsigned cs1 with
      | none => simp [hu] at h
      | some p =>
        obtain ⟨l, r⟩ := p
        simp only [hu, Option.some.injEq, Prod.mk.injEq] at h
        have := scanUnsigned_length _ _ _ hu
        rw [← h.2]
        exact Nat.lt_succ_of_lt this
    · simp only [h1, if_false] at h
      exact scanUnsigned_length _ _ _ h

theorem scanLiteral_length (cs : List Char) (v : JValue) (rest : List Char)
    (h : scanLiteral cs = some (v, rest)) : rest.length < cs.length := by
  unfold scanLiteral at h
  split at h
  all_goals first
    | (simp only [Option.some.injEq, Prod.mk.injEq] at h
       rw [← h.2]
       simp only [List.length_cons]
       omega)
    | (simp at h)


/-- Three units of fuel per character are enough: a result obtained with any fuel is
obtained with that much, and it consumes input. -/
theorem parse_fuel_enough (n : Nat) :
    (∀ cs r, parseValue n cs = some r →
      parseValue (3 * cs.length + 1) cs = some r ∧ r.2.length < cs.length) ∧
    (∀ cs r, parseObject n cs = some r →
      parseObject (3 * cs.length + 3) cs = some r ∧ r.2.length < cs.length) ∧
    (∀ cs r, parseMembers n cs = some r →
      parseMembers (3 * cs.length + 2) cs = some r ∧ r.2.length < cs.length) ∧
    (∀ cs r, parseArray n cs = some r →
      parseArray (3 * cs.length + 3) cs = some r ∧ r.length < cs.length) ∧
    (∀ cs r, parseItems n cs = some r →
      parseItems (3 * cs.length + 2) cs = some r ∧ r.length < cs.length) := by
  induction n with
  | zero =>
    refine ⟨?_, ?_, ?_, ?_, ?_⟩ <;> intro cs r h
    · simp [parseValue] at h
    · simp [parseObject] at h
    · simp [parseMembers] at h
    · simp [parseArray] at h
    · simp [parseItems] at h
  | succ n ih =>
    obtain ⟨ihV, ihO, ihM, ihA, ihI⟩ := ih
    refine ⟨?_, ?_, ?_, ?_, ?_⟩
    · intro cs r h
      cases cs with
      | nil => simp [parseValue] at h
      | cons c rest =>
        have e : 3 * (c :: rest).length + 1 = (3 * rest.length + 3) + 1 := by
          simp only [List.length_cons]; omega
        rw [e]
        rw [parseValue] at h ⊢
        by_cases h1 : c = '\x7b'
        · simp only [h1, if_true] at h ⊢
          cases ho : parseObject n rest with
          | none => simp [ho] at h
          | some p =>
            obtain ⟨g1, g2⟩ := ihO rest p ho
            rw [ho] at h; rw [g1]
            simp only [Option.some.injEq] at h
            refine ⟨by rw [← h], ?_⟩
            rw [← h]; exact Nat.lt_succ_of_lt g2
        · simp only [h1, if_false] at h ⊢
          by_cases h2 : c = '['
          · simp only [h2, if_true] at h ⊢
            cases ho : parseArray n rest with
            | none => simp [ho] at h
            | some p =>
              obtain ⟨g1, g2⟩ := ihA rest p ho
              rw [ho] at h; rw [g1]
              simp only [Option.some.injEq] at h
              refine ⟨by rw [← h], ?_⟩
              rw [← h]; exact Nat.lt_succ_of_lt g2
          · simp only [h2, if_false] at h ⊢
            refine ⟨h, ?_⟩
            by_cases h3 : c = '"'
            · simp only [h3, if_true] at h
              cases hu : unquote rest with
              | none => simp [hu] at h
              | some p =>
                obtain ⟨s, r1⟩ := p
                simp only [hu, Option.some.injEq] at h
                rw [← h]
                exact Nat.lt_succ_of_lt (unquote_length _ _ _ hu)
            · simp only [h3, if_false] at h
              by_cases h4 : c = 't' ∨ c = 'f' ∨ c = 'n'
              · simp only [h4, if_true] at h
                obtain ⟨v, r1⟩ := r
                exact scanLiteral_length _ _ _ h
              · simp only [h4, if_false] at h
                cases hs : scanNumber (c :: rest) with
                | none => simp [hs] at h
                | some p =>
                  obtain ⟨lit, r1⟩ := p
                  simp only [hs, Option.some.injEq] at h
                  rw [← h]
                  exact scanNumber_length _ _ _ hs
    · intro cs r h
      have e : 3 * cs.length + 3 = (3 * cs.length + 2) + 1 := rfl
      rw [e]
      rw [parseObject] at h ⊢
      have hsl := skipSpace_length cs
      cases hs : skipSpace cs with
      | nil => simp [hs] at h
      | cons c rest =>
        rw [hs] at hsl
        simp only [List.length_cons] at hsl
        simp only [hs] at h ⊢
        by_cases h1 : c = '\x7d'
        · simp only [h1, if_true] at h ⊢
          refine ⟨h, ?_⟩
          simp only [Option.some.injEq] at h
          rw [← h]
          exact hsl
        · simp only [h1, if_false] at h ⊢
          obtain ⟨g1, g2⟩ := ihM _ _ h
          simp only [List.length_cons] at g1 g2
          exact ⟨(parse_fuel_le _ _ (by omega)).2.2.1 _ _ g1, by omega⟩
    · intro cs r h
      have e : 3 * cs.length + 2 = (3 * cs.length + 1) + 1 := rfl
      rw [e]
      rw [parseMembers] at h ⊢
      have hsl := skipSpace_length cs
      cases hs : skipSpace cs with
      | nil => simp [hs] at h
      | cons q rest =>
        rw [hs] at hsl
        simp only [List.length_cons] at hsl
        simp only [hs] at h ⊢
        by_cases h1 : q = '"'
        · simp only [h1, if_true] at h ⊢
          cases hu : unquote rest with
          | none => simp [hu] at h
          | some kr =>
            obtain ⟨key, r1⟩ := kr
            have l1 := unquote_length _ _ _ hu
            simp only [hu] at h ⊢
            have hsl1 := skipSpace_length r1
            cases hs1 : skipSpace r1 with
            | nil => simp [hs1] at h
            | cons colon r2 =>
              rw [hs1] at hsl1
              simp only [List.length_cons] at hsl1
              simp only [hs1] at h ⊢
              by_cases h2 : colon = ':'
              · simp only [h2, if_true] at h ⊢
                have hsl2 := skipSpace_length r2
                cases hv : parseValue n (skipSpace r2) with
                | none => simp [hv] at h
                | some vr =>
                  obtain ⟨v, r3⟩ := vr
                  obtain ⟨g1, g2⟩ := ihV _ _ hv
                  simp only at g2
                  rw [hv] at h
                  rw [(parse_fuel_le _ _ (by omega)).1 _ _ g1]
                  simp only at h ⊢
                  have hsl3 := skipSpace_length r3
                  cases hs3 : skipSpace r3 with
                  | nil => simp [hs3] at h
                  | cons d r4 =>
                    rw [hs3] at hsl3
                    simp only [List.length_cons] at hsl3
                    simp only [hs3] at h ⊢
                    by_cases h3 : d = ','
                    · simp only [h3, if_true] at h ⊢
                      cases hm : parseMembers n r4 with
                      | none => simp [hm] at h
                      | some mr =>
                        obtain ⟨k1, k2⟩ := ihM _ _ hm
                        rw [hm] at h
                        rw [(parse_fuel_le _ _ (by omega)).2.2.1 _ _ k1]
                        refine ⟨h, ?_⟩
                        simp only [Option.some.injEq] at h
                        rw [← h]
                        simp only
                        omega
                    · simp only [h3, if_false] at h ⊢
                      refine ⟨h, ?_⟩
                      by_cases h4 : d = '\x7d'
                      · simp only [h4, if_true, Option.some.injEq] at h
                        rw [← h]
                        simp only
                        omega
                      · simp [h4] at h
              · simp [h2] at h
        · simp [h1] at h
    · intro cs r h
      have e : 3 * cs.length + 3 = (3 * cs.length + 2) + 1 := rfl
      rw [e]
      rw [parseArray] at h ⊢
      have hsl := skipSpace_length cs
      cases hs : skipSpace cs with
      | nil => simp [hs] at h
      | cons c rest =>
        rw [hs] at hsl
        simp only [List.length_cons] at hsl
        simp only [hs] at h ⊢
        by_cases h1 : c = ']'
        · simp only [h1, if_true] at h ⊢
          refine ⟨h, ?_⟩
          simp only [Option.some.injEq] at h
          rw [← h]
          exact hsl
        · simp only [h1, if_false] at h ⊢
          obtain ⟨g1, g2⟩ := ihI _ _ h
          simp only [List.length_cons] at g1 g2
          exact ⟨(parse_fuel_le _ _ (by omega)).2.2.2.2 _ _ g1, by omega⟩
    · intro cs r h
      have e : 3 * cs.length + 2 = (3 * cs.length + 1) + 1 := rfl
      rw [e]
      rw [parseItems] at h ⊢
      have hsl := skipSpace_length cs
      cases hv : parseValue n (skipSpace cs) with
      | none => simp [hv] at h
      | some vr =>
        obtain ⟨v, r1⟩ := vr
        obtain ⟨g1, g2⟩ := ihV _ _ hv
        simp only at g2
        rw [hv] at h
        rw [(parse_fuel_le _ _ (by omega)).1 _ _ g1]
        simp only at h ⊢
        have hsl1 := skipSpace_length r1
        cases hs1 : skipSpace r1 with
        | nil => simp [hs1] at h
        | cons d r2 =>
          rw [hs1] at hsl1
          simp only [List.length_cons] at hsl1
          simp only [hs1] at h ⊢
          by_cases h3 : d = ','
          · simp only [h3, if_true] at h ⊢
            obtain ⟨k1, k2⟩ := ihI _ _ h
            exact ⟨(parse_fuel_le _ _ (by omega)).2.2.2.2 _ _ k1, by omega⟩
          · simp only [h3, if_false] at h ⊢
            refine ⟨h, ?_⟩
            by_cases h4 : d = ']'
            · simp only [h4, if_true, Option.some.injEq] at h
              rw [← h]
              omega
            · simp [h4] at h

/-- The bound on nesting that `parseDocument` uses loses nothing: a text accepted with any
bound is accepted by `parseDocument`, with the same result. -/
theorem parseDocument_fuel (fuel : Nat) (data : List Char)
    (r : JValue × List (List Char × JValue)) (h : parseDocumentWith fuel data = some r) :
    parseDocument data = some r := by
  unfold parseDocument
  unfold parseDocumentWith at h ⊢
  have hsl := skipSpace_length data
  cases hs : skipSpace data with
  | nil => simp [hs] at h
  | cons c rest =>
    rw [hs] at hsl
    simp only [List.length_cons] at hsl
    simp only [hs] at h ⊢
    by_cases h1 : c = '\x7b'
    · simp only [h1, if_true] at h ⊢
      cases ho : parseObject fuel rest with
      | none => simp [ho] at h
      | some p =>
        obtain ⟨g1, _⟩ := (parse_fuel_enough fuel).2.1 _ _ ho
        rw [ho] at h
        rw [(parse_fuel_le _ _ (by omega)).2.1 _ _ g1]
        exact h
    · simp only [h1, if_false] at h ⊢
      cases hv : parseValue fuel (c :: rest) with
      | none => simp [hv] at h
      | some p =>
        obtain ⟨g1, _⟩ := (parse_fuel_enough fuel).1 _ _ hv
        simp only [List.length_cons] at g1
        rw [hv] at h
        rw [(parse_fuel_le _ _ (by omega)).1 _ _ g1]
        exact h

/-! ## The stub -/

theorem wrapInt_of_inRange (x : Int) (h : inRange x) : wrapInt x = x := by
  obtain ⟨h1, h2⟩ := h
  simp only [minInt, maxInt] at h1 h2
  unfold wrapInt
  omega

theorem putsOf_append (xs ys : List Call) : putsOf (xs ++ ys) = putsOf xs ++ putsOf ys := by
  induction xs with
  | nil => rfl
  | cons c cs ih => cases c <;> simp [putsOf, ih]

theorem PutState_error_host (stub : Stub) (key : String) (value : List Char) (err : Error)
    (stub1 : Stub) (h : stub.PutState key value = (some err, stub1)) :
    ∃ e, err = Error.host e := by
  unfold Stub.PutState at h
  cases hp : stub.putErr stub.calls key value with
  | some e =>
    rw [hp] at h
    simp only [Prod.mk.injEq, Option.some.injEq] at h
    exact ⟨e, h.1.symm⟩
  | none =>
    rw [hp] at h
    simp at h

/-- What a transfer that passes every check does, on a host that refuses nothing. -/
theorem transfer_run (stub : Stub) (fromKey toKey amountStr : String) (src dst : Account)
    (amount : Int) (hput : stub.putNeverFails)
    (hsrc : holdsAccount stub fromKey src) (hdst : holdsAccount stub toKey dst)
    (hamt : Atoi amountStr = .ok amount) (hbal : amount ≤ src.Balance) :
    transfer stub [fromKey, toKey, amountStr] =
      (.ok none,
        { stub with
          calls := stub.calls ++ [Call.getState fromKey, Call.getState toKey,
            Call.putState fromKey
              (encodeAccount { src with Balance := wrapInt (src.Balance - amount) }),
            Call.putState toKey
              (encodeAccount { dst with Balance := wrapInt (dst.Balance + amount) })]
          ledger := fun k =>
            if k = toKey then
              some (encodeAccount { dst with Balance := wrapInt (dst.Balance + amount) })
            else if k = fromKey then
              some (encodeAccount { src with Balance := wrapInt (src.Balance - amount) })
            else stub.ledger k }) := by
  obtain ⟨hg1, hsrc⟩ := hsrc
  obtain ⟨hg2, hdst⟩ := hdst
  have hg1 : ∀ history, stub.getErr history fromKey = none := hg1
  have hg2 : ∀ history, stub.getErr history toKey = none := hg2
  have hp : ∀ history key value, stub.putErr history key value = none := hput
  simp only [transfer, Stub.GetState, Stub.PutState, hg1, hg2, hp, hsrc, hdst, hamt,
    not_lt.mpr hbal, if_false, Marshal]
  simp

/-! ## Failures and the ledger -/

/-- Whatever `read` answers, it writes nothing. -/
theorem read_writes_nothing (stub : Stub) (args : List String) :
    (read stub args).2.ledger = stub.ledger ∧
    putsOf (read stub args).2.calls = putsOf stub.calls := by
  rcases args with _ | ⟨a, _ | ⟨b, rest⟩⟩
  · exact ⟨rfl, rfl⟩
  · simp only [read, Stub.GetState]
    cases stub.getErr stub.calls a <;> simp [putsOf_append, putsOf]
  · exact ⟨rfl, rfl⟩

/-- On a host that refuses no `PutState`, a failing `write` has not touched the stub. -/
theorem write_error_unchanged (stub : Stub) (args : List String) (e : Error)
    (hput : stub.putNeverFails) (h : (write stub args).1 = .error e) :
    (write stub args).2 = stub := by
  have hp : ∀ history key value, stub.putErr history key value = none := hput
  rcases args with _ | ⟨a, _ | ⟨b, _ | ⟨c, rest⟩⟩⟩
  · rfl
  · rfl
  · simp [write, Stub.PutState, hp] at h
  · rfl

/-- On a host that refuses no `PutState`, a failing `Init` has not touched the stub. -/
theorem Init_error_unchanged (stub : Stub) (function : String) (args : List String) (e : Error)
    (hput : stub.putNeverFails) (h : (Init stub function args).1 = .error e) :
    (Init stub function args).2 = stub := by
  have hp : ∀ history key value, stub.putErr history key value = none := hput
  by_cases ha : args.length ≠ 0
  · simp [Init, ha]
  · simp [Init, ha, Marshal, Stub.PutState, hp] at h

/-- The ways `transfer` fails before it writes: each leaves the ledger as it was and
issues no `PutState`. -/
theorem transfer_error_unchanged (stub : Stub) (args : List String) (e : Error)
    (hput : stub.putNeverFails) (h : (transfer stub args).1 = .error e) :
    (transfer stub args).2.ledger = stub.ledger ∧
    putsOf (transfer stub args).2.calls = putsOf stub.calls := by
  have hp : ∀ history key value, stub.putErr history key value = none := hput
  rcases args with _ | ⟨a, _ | ⟨b, _ | ⟨c, _ | ⟨d, rest⟩⟩⟩⟩
  · exact ⟨rfl, rfl⟩
  · exact ⟨rfl, rfl⟩
  · exact ⟨rfl, rfl⟩
  · revert h
    simp only [transfer, Stub.GetState, Stub.PutState, Marshal, hp]
    cases stub.getErr stub.calls a with
    | some e1 => intro _; simp [putsOf_append, putsOf]
    | none =>
      simp only []
      cases Unmarshal (stub.ledger a) Account.zero with
      | error e2 => intro _; simp [putsOf_append, putsOf]
      | ok accFrom =>
        simp only []
        cases stub.getErr (stub.calls ++ [Call.getState a]) b with
        | some e3 => intro _; simp [putsOf_append, putsOf]
        | none =>
          simp only []
          cases Unmarshal (stub.ledger b) Account.zero with
          | error e4 => intro _; simp [putsOf_append, putsOf]
          | ok accTo =>
            simp only []
            cases Atoi c with
            | error e5 => intro _; simp [putsOf_append, putsOf]
            | ok amount =>
              simp only []
              by_cases hlt : accFrom.Balance < amount
              · intro _; simp [hlt, putsOf_append, putsOf]
              · simp [hlt, hp]
  · exact ⟨rfl, rfl⟩

/-- A successful `transfer` returns no value. -/
theorem transfer_result (stub : Stub) (args : List String) :
    (transfer stub args).1 = .ok none ∨ ∃ e, (transfer stub args).1 = .error e := by
  rcases args with _ | ⟨a, _ | ⟨b, _ | ⟨c, _ | ⟨d, rest⟩⟩⟩⟩
  · exact Or.inr ⟨_, rfl⟩
  · exact Or.inr ⟨_, rfl⟩
  · exact Or.inr ⟨_, rfl⟩
  · simp only [transfer, Stub.GetState, Stub.PutState, Marshal]
    cases stub.getErr stub.calls a with
    | some e1 => exact Or.inr ⟨_, rfl⟩
    | none =>
      simp only []
      cases Unmarshal (stub.ledger a) Account.zero with
      | error e2 => exact Or.inr ⟨_, rfl⟩
      | ok accFrom =>
        simp only []
        cases stub.getErr (stub.calls ++ [Call.getState a]) b with
        | some e3 => exact Or.inr ⟨_, rfl⟩
        | none =>
          simp only []
          cases Unmarshal (stub.ledger b) Account.zero with
          | error e4 => exact Or.inr ⟨_, rfl⟩
          | ok accTo =>
            simp only []
            cases Atoi c with
            | error e5 => exact Or.inr ⟨_, rfl⟩
            | ok amount =>
              simp only []
              by_cases hlt : accFrom.Balance < amount
              · simp [hlt]
              · simp only [hlt, if_false]
                cases stub.putErr (stub.calls ++ [Call.getState a] ++ [Call.getState b]) a
                    (encodeAccount
                      { Name := accFrom.Name, Balance := wrapInt (accFrom.Balance - amount) }) with
                | some e6 => exact Or.inr ⟨_, rfl⟩
                | none =>
                  simp only []
                  split
                  · exact Or.inr ⟨_, rfl⟩
                  · exact Or.inl rfl
  · exact Or.inr ⟨_, rfl⟩

/-- With an amount that does not parse, `transfer` fails before it writes. -/
theorem transfer_unparsable (stub : Stub) (fromKey toKey amountStr : String)
    (hamt : ∀ n, Atoi amountStr ≠ .ok n) :
    (∃ e, (transfer stub [fromKey, toKey, amountStr]).1 = .error e) ∧
    (transfer stub [fromKey, toKey, amountStr]).2.ledger = stub.ledger ∧
    putsOf (transfer stub [fromKey, toKey, amountStr]).2.calls = putsOf stub.calls := by
  simp only [transfer, Stub.GetState]
  cases stub.getErr stub.calls fromKey with
  | some e1 => simp [putsOf_append, putsOf]
  | none =>
    simp only []
    cases Unmarshal (stub.ledger fromKey) Account.zero with
    | error e2 => simp [putsOf_append, putsOf]
    | ok accFrom =>
      simp only []
      cases stub.getErr (stub.calls ++ [Call.getState fromKey]) toKey with
      | some e3 => simp [putsOf_append, putsOf]
      | none =>
        simp only []
        cases Unmarshal (stub.ledger toKey) Account.zero with
        | error e4 => simp [putsOf_append, putsOf]
        | ok accTo =>
          simp only []
          cases h : Atoi amountStr with
          | error e5 => simp [putsOf_append, putsOf]
          | ok amount => exact absurd h (hamt amount)

/-! ## Records of the wrong type -/

theorem keyMatches_length (key : List Char) (field : String) (h : keyMatches key field = true) :
    key.length = field.toList.length := by
  unfold keyMatches at h
  simp only [Bool.or_eq_true, decide_eq_true_eq] at h
  rcases h with h | h
  · rw [h]
  · have := congrArg List.length h
    simpa using this

theorem storeMember_wrongType (acc : Account) (m : List Char × JValue) (h : wrongType m) :
    storeMember acc m = .error UnmarshalError.typeError := by
  obtain ⟨key, v⟩ := m
  rcases h with ⟨hk, hnull, hstr⟩ | ⟨hk, hnull, hnum⟩
  · simp only at hk hnull hstr
    unfold storeMember
    simp only [hk, if_true]
  · simp only at hk hnull hnum
    have hn : keyMatches key "name" = false := by
      cases hkn : keyMatches key "name" with
      | false => rfl
      | true =>
        have h1 := keyMatches_length key "name" hkn
        have h2 := keyMatches_length key "balance" hk
        rw [h1] at h2
        exact absurd h2 (by decide)
    unfold storeMember
    simp only [hn, hk, if_true, Bool.false_eq_true, if_false]
    cases v with
    | null => exact absurd rfl hnull
    | number lit =>
      simp only []
      cases hp : parseInt lit with
      | ok n => exact absurd hp (hnum lit n rfl)
      | error e => rfl
    | string s => rfl
    | bool b => rfl
    | array => rfl
    | object => rfl

theorem storeMembers_wrongType (ms : List (List Char × JValue)) (m : List Char × JValue)
    (hm : m ∈ ms) (h : wrongType m) :
    ∀ acc, storeMembers acc ms = .error UnmarshalError.typeError := by
  induction ms with
  | nil => exact absurd hm (List.not_mem_nil _)
  | cons x xs ih =>
    intro acc
    unfold storeMembers
    rcases List.mem_cons.mp hm with hx | hx
    · subst hx
      rw [storeMember_wrongType acc m h]
    · cases hs : storeMember acc x with
      | ok acc1 => exact ih hx acc1
      | error e =>
        cases e with
        | typeError => rfl
        | syntaxError =>
          exfalso
          unfold storeMember at hs
          split at hs
          · split at hs <;> cases hs
          · split at hs
            · split at hs
              · split at hs <;> cases hs
              · cases hs
              · cases hs
            · cases hs

theorem Unmarshal_malformed (data : Option (List Char)) (v : Account)
    (h : malformedRecord data) : Unmarshal data v = .error UnmarshalError.typeError := by
  obtain ⟨ms, hp, m, hm, hw⟩ := h
  unfold Unmarshal
  rw [hp]
  exact storeMembers_wrongType ms m hm hw v

/-! ## Every way a transfer can end -/

theorem wrapInt_inRange (x : Int) : inRange (wrapInt x) := by
  unfold inRange wrapInt minInt maxInt
  constructor <;> omega

theorem Unmarshal_ok_isSome (data : Option (List Char)) (v acc : Account)
    (h : Unmarshal data v = .ok acc) : data.isSome = true := by
  cases data with
  | some bytes => rfl
  | none =>
    have e : Unmarshal none v = .error UnmarshalError.syntaxError := rfl
    rw [e] at h
    cases h

/-- The three ways a `transfer` with three arguments ends: with an error and the ledger
as it was; with the host's error for the second `PutState` and the ledger changed under
the source key only; or with success and both records rewritten. -/
theorem transfer_outcome (stub : Stub) (fromKey toKey amountStr : String) :
    (∃ e, (transfer stub [fromKey, toKey, amountStr]).1 = .error e ∧
      (transfer stub [fromKey, toKey, amountStr]).2.ledger = stub.ledger) ∨
    (∃ src dst amount e,
      Unmarshal (stub.ledger fromKey) Account.zero = .ok src ∧
      Unmarshal (stub.ledger toKey) Account.zero = .ok dst ∧
      Atoi amountStr = .ok amount ∧ amount ≤ src.Balance ∧
      (transfer stub [fromKey, toKey, amountStr]).1 = .error (Error.host e) ∧
      (transfer stub [fromKey, toKey, amountStr]).2.ledger =
        fun k =>
          if k = fromKey then
            some (encodeAccount { src with Balance := wrapInt (src.Balance - amount) })
          else stub.ledger k) ∨
    (∃ src dst amount,
      Unmarshal (stub.ledger fromKey) Account.zero = .ok src ∧
      Unmarshal (stub.ledger toKey) Account.zero = .ok dst ∧
      Atoi amountStr = .ok amount ∧ amount ≤ src.Balance ∧
      (transfer stub [fromKey, toKey, amountStr]).1 = .ok none ∧
      (transfer stub [fromKey, toKey, amountStr]).2.ledger =
        fun k =>
          if k = toKey then
            some (encodeAccount { dst with Balance := wrapInt (dst.Balance + amount) })
          else if k = fromKey then
            some (encodeAccount { src with Balance := wrapInt (src.Balance - amount) })
          else stub.ledger k) := by
  simp only [transfer, Stub.GetState, Stub.PutState, Marshal]
  cases stub.getErr stub.calls fromKey with
  | some e1 => exact Or.inl ⟨_, rfl, rfl⟩
  | none =>
    simp only []
    cases hsrc : Unmarshal (stub.ledger fromKey) Account.zero with
    | error e2 => exact Or.inl ⟨_, rfl, rfl⟩
    | ok accFrom =>
      simp only []
      cases stub.getErr (stub.calls ++ [Call.getState fromKey]) toKey with
      | some e3 => exact Or.inl ⟨_, rfl, rfl⟩
      | none =>
        simp only []
        cases hdst : Unmarshal (stub.ledger toKey) Account.zero with
        | error e4 => exact Or.inl ⟨_, rfl, rfl⟩
        | ok accTo =>
          simp only []
          cases hamt : Atoi amountStr with
          | error e5 => exact Or.inl ⟨_, rfl, rfl⟩
          | ok amount =>
            simp only []
            by_cases hlt : accFrom.Balance < amount
            · simp only [hlt, if_true]
              exact Or.inl ⟨_, rfl, trivial⟩
            · simp only [hlt, if_false]
              cases stub.putErr (stub.calls ++ [Call.getState fromKey] ++ [Call.getState toKey])
                  fromKey (encodeAccount
                    { Name := accFrom.Name, Balance := wrapInt (accFrom.Balance - amount) }) with
              | some e6 => exact Or.inl ⟨_, rfl, rfl⟩
              | none =>
                simp only []
                cases stub.putErr
                    (stub.calls ++ [Call.getState fromKey] ++ [Call.getState toKey] ++
                      [Call.putState fromKey (encodeAccount
                        { Name := accFrom.Name,
                          Balance := wrapInt (accFrom.Balance - amount) })])
                    toKey (encodeAccount
                      { Name := accTo.Name, Balance := wrapInt (accTo.Balance + amount) }) with
                | some e7 =>
                  exact Or.inr (Or.inl ⟨accFrom, accTo, amount, e7, rfl, rfl, rfl,
                    not_lt.mp hlt, rfl, rfl⟩)
                | none =>
                  exact Or.inr (Or.inr ⟨accFrom, accTo, amount, rfl, rfl, rfl,
                    not_lt.mp hlt, rfl, rfl⟩)

/-! ## Seeding on a host that refuses nothing -/

/-- What `Init` without arguments does on a host that refuses no `PutState`. -/
theorem Init_run (stub : Stub) (function : String) (hput : stub.putNeverFails) :
    Init stub function [] = (.ok none,
      { stub with
        calls := stub.calls ++ [Call.putState "Vatsala" (encodeAccount ⟨"Vatsala", 1000⟩),
          Call.putState "Harish" (encodeAccount ⟨"Harish", 1000⟩),
          Call.putState "Narayan" (encodeAccount ⟨"Narayan", 1000⟩)]
        ledger := fun k =>
          if k = "Narayan" then some (encodeAccount ⟨"Narayan", 1000⟩)
          else if k = "Harish" then some (encodeAccount ⟨"Harish", 1000⟩)
          else if k = "Vatsala" then some (encodeAccount ⟨"Vatsala", 1000⟩)
          else stub.ledger k }) := by
  have hp : ∀ history key value, stub.putErr history key value = none := hput
  simp only [Init, Marshal, Stub.PutState, hp]
  simp

/-! # The claims -/

/-- C1, amended.  On a host that refuses no `PutState`, for distinct keys `fromKey` and
`toKey` that hold the accounts `src` and `dst`, and an amount string that parses to
`amount ≤ src.Balance` such that neither `src.Balance - amount` nor
`dst.Balance + amount` leaves the range of `int`: `transfer` succeeds, the record then
held under `fromKey` is `src` with balance `src.Balance - amount`, the record held
under `toKey` is `dst` with balance `dst.Balance + amount`, and the two stored balances
add up to what they added up to before. -/
theorem transfer_moves_funds (stub : Stub) (fromKey toKey amountStr : String)
    (src dst : Account) (amount : Int) (hput : stub.putNeverFails)
    (hsrc : holdsAccount stub fromKey src) (hdst : holdsAccount stub toKey dst)
    (hamt : Atoi amountStr = .ok amount) (hbal : amount ≤ src.Balance)
    (hne : fromKey ≠ toKey)
    (hr1 : inRange (src.Balance - amount)) (hr2 : inRange (dst.Balance + amount)) :
    (transfer stub [fromKey, toKey, amountStr]).1 = .ok none ∧
    ∃ a b : Account,
      holdsAccount (transfer stub [fromKey, toKey, amountStr]).2 fromKey a ∧
      holdsAccount (transfer stub [fromKey, toKey, amountStr]).2 toKey b ∧
      a = { src with Balance := src.Balance - amount } ∧
      b = { dst with Balance := dst.Balance + amount } ∧
      a.Balance + b.Balance = src.Balance + dst.Balance := by
  rw [transfer_run stub fromKey toKey amountStr src dst amount hput hsrc hdst hamt hbal]
  rw [wrapInt_of_inRange _ hr1, wrapInt_of_inRange _ hr2]
  refine ⟨rfl, _, _, ⟨hsrc.1, ?_⟩, ⟨hdst.1, ?_⟩, rfl, rfl, ?_⟩
  · simp only [if_neg hne, if_true]
    exact Unmarshal_Marshal _ _ hr1
  · simp only [if_true]
    exact Unmarshal_Marshal _ _ hr2
  · simp only []
    omega

/-- C1, at the example of the specification: with `A` and `B` at 1000,
`transfer(A, B, "300")` leaves 700 under `A` and 1300 under `B`. -/
theorem transfer_moves_funds_witness :
    (transfer stubAB ["A", "B", "300"]).1 = .ok none ∧
    ∃ a b : Account,
      holdsAccount (transfer stubAB ["A", "B", "300"]).2 "A" a ∧
      holdsAccount (transfer stubAB ["A", "B", "300"]).2 "B" b ∧
      a = { Name := "A", Balance := 1000 - 300 } ∧
      b = { Name := "B", Balance := 1000 + 300 } ∧
      a.Balance + b.Balance = 1000 + 1000 :=
  transfer_moves_funds stubAB "A" "B" "300" ⟨"A", 1000⟩ ⟨"B", 1000⟩ 300
    (fun _ _ _ => rfl) ⟨fun _ => rfl, by decide⟩ ⟨fun _ => rfl, by decide⟩ (by decide)
    (by decide) (by decide) (by decide) (by decide)

/-- C1 as stated fails in three ways.  A transfer from `A` (1000) to `A` itself of 300
succeeds and leaves 1300 under `A`, not 700.  A transfer of 1 to an account holding the
largest `int` succeeds and leaves the smallest `int` there, so that the sum is not kept.
And on a host that refuses `PutState` the transfer does not succeed. -/
theorem transfer_moves_funds_counterexample :
    (Unmarshal (stubAB.ledger "A") Account.zero = .ok ⟨"A", 1000⟩ ∧ Atoi "300" = .ok 300 ∧
      (transfer stubAB ["A", "A", "300"]).1 = .ok none ∧
      Unmarshal ((transfer stubAB ["A", "A", "300"]).2.ledger "A") Account.zero =
        .ok ⟨"A", 1300⟩ ∧
      Unmarshal ((transfer stubAB ["A", "A", "300"]).2.ledger "A") Account.zero ≠
        .ok ⟨"A", 1000 - 300⟩) ∧
    (Unmarshal (stubFullB.ledger "A") Account.zero = .ok ⟨"A", 1000⟩ ∧
      Unmarshal (stubFullB.ledger "B") Account.zero = .ok ⟨"B", 9223372036854775807⟩ ∧
      Atoi "1" = .ok 1 ∧
      (transfer stubFullB ["A", "B", "1"]).1 = .ok none ∧
      Unmarshal ((transfer stubFullB ["A", "B", "1"]).2.ledger "A") Account.zero =
        .ok ⟨"A", 999⟩ ∧
      Unmarshal ((transfer stubFullB ["A", "B", "1"]).2.ledger "B") Account.zero =
        .ok ⟨"B", -9223372036854775808⟩ ∧
      (999 : Int) + -9223372036854775808 ≠ 1000 + 9223372036854775807) ∧
    (Unmarshal (stubReadOnly.ledger "A") Account.zero = .ok ⟨"A", 1000⟩ ∧
      Unmarshal (stubReadOnly.ledger "B") Account.zero = .ok ⟨"B", 1000⟩ ∧
      (transfer stubReadOnly ["A", "B", "300"]).1 =
        .error (Error.host "ledger is read-only")) := by
  decide

/-- C2.  When both keys hold accounts and the amount string parses to more than the
balance of the source, `transfer` fails with `Insufficient Balance`, issues no
`PutState`, and leaves the ledger as it was, so the values under both keys are what
they were. -/
theorem transfer_insufficient_balance (stub : Stub) (fromKey toKey amountStr : String)
    (src dst : Account) (amount : Int)
    (hsrc : holdsAccount stub fromKey src) (hdst : holdsAccount stub toKey dst)
    (hamt : Atoi amountStr = .ok amount) (hgt : src.Balance < amount) :
    (transfer stub [fromKey, toKey, amountStr]).1 = .error (Error.new "Insufficient Balance") ∧
    (transfer stub [fromKey, toKey, amountStr]).2.ledger = stub.ledger ∧
    putsOf (transfer stub [fromKey, toKey, amountStr]).2.calls = putsOf stub.calls ∧
    (transfer stub [fromKey, toKey, amountStr]).2.ledger fromKey = stub.ledger fromKey ∧
    (transfer stub [fromKey, toKey, amountStr]).2.ledger toKey = stub.ledger toKey := by
  obtain ⟨hg1, hsrc⟩ := hsrc
  obtain ⟨hg2, hdst⟩ := hdst
  have hg1 : ∀ history, stub.getErr history fromKey = none := hg1
  have hg2 : ∀ history, stub.getErr history toKey = none := hg2
  simp only [transfer, Stub.GetState, hg1, hg2, hsrc, hdst, hamt, hgt, if_true]
  simp [putsOf_append, putsOf]

/-- C2, at the second example of the specification: with 700 under `A`, a transfer of 1000
fails with `Insufficient Balance` and changes nothing. -/
theorem transfer_insufficient_balance_witness :
    (transfer stubAfter ["A", "B", "1000"]).1 = .error (Error.new "Insufficient Balance") ∧
    (transfer stubAfter ["A", "B", "1000"]).2.ledger = stubAfter.ledger ∧
    putsOf (transfer stubAfter ["A", "B", "1000"]).2.calls = putsOf stubAfter.calls ∧
    (transfer stubAfter ["A", "B", "1000"]).2.ledger "A" = stubAfter.ledger "A" ∧
    (transfer stubAfter ["A", "B", "1000"]).2.ledger "B" = stubAfter.ledger "B" :=
  transfer_insufficient_balance stubAfter "A" "B" "1000" ⟨"A", 700⟩ ⟨"B", 1300⟩ 1000
    ⟨fun _ => rfl, by decide⟩ ⟨fun _ => rfl, by decide⟩ (by decide) (by decide)

/-- C3, the code at its failing input.  With 1000 under `A` and 100 under `B`, both
non-negative, `transfer(A, B, "-500")` succeeds and leaves the balance -400 under `B`. -/
theorem transfer_negative_amount :
    Unmarshal (stubSmallB.ledger "A") Account.zero = .ok ⟨"A", 1000⟩ ∧
    Unmarshal (stubSmallB.ledger "B") Account.zero = .ok ⟨"B", 100⟩ ∧
    Atoi "-500" = .ok (-500) ∧
    (transfer stubSmallB ["A", "B", "-500"]).1 = .ok none ∧
    Unmarshal ((transfer stubSmallB ["A", "B", "-500"]).2.ledger "A") Account.zero =
      .ok ⟨"A", 1500⟩ ∧
    Unmarshal ((transfer stubSmallB ["A", "B", "-500"]).2.ledger "B") Account.zero =
      .ok ⟨"B", -400⟩ ∧
    (-400 : Int) < 0 := by
  decide

/-- C4.  On a host that refuses no `PutState`, `transfer` either succeeds or returns an
error with the ledger as it was and no `PutState` issued; and the same holds of every
failure of `Init`, `write`, `read`, `Invoke` and `Query`, among them the failures on a
wrong number of arguments, on an amount that does not parse and on an insufficient
balance. -/
theorem failures_precede_writes (stub : Stub) (function : String) (args : List String)
    (hput : stub.putNeverFails) :
    ((transfer stub args).1 = .ok none ∨
      ∃ e, (transfer stub args).1 = .error e ∧
        (transfer stub args).2.ledger = stub.ledger ∧
        putsOf (transfer stub args).2.calls = putsOf stub.calls) ∧
    (∀ e, (Init stub function args).1 = .error e →
      (Init stub function args).2.ledger = stub.ledger ∧
      putsOf (Init stub function args).2.calls = putsOf stub.calls) ∧
    (∀ e, (write stub args).1 = .error e →
      (write stub args).2.ledger = stub.ledger ∧
      putsOf (write stub args).2.calls = putsOf stub.calls) ∧
    ((read stub args).2.ledger = stub.ledger ∧
      putsOf (read stub args).2.calls = putsOf stub.calls) ∧
    (∀ e, (Invoke stub function args).1 = .error e →
      (Invoke stub function args).2.ledger = stub.ledger ∧
      putsOf (Invoke stub function args).2.calls = putsOf stub.calls) ∧
    ((Query stub function args).2.ledger = stub.ledger ∧
      putsOf (Query stub function args).2.calls = putsOf stub.calls) := by
  have hT : ∀ e, (transfer stub args).1 = .error e →
      (transfer stub args).2.ledger = stub.ledger ∧
      putsOf (transfer stub args).2.calls = putsOf stub.calls :=
    fun e h => transfer_error_unchanged stub args e hput h
  have hI : ∀ f e, (Init stub f args).1 = .error e →
      (Init stub f args).2.ledger = stub.ledger ∧
      putsOf (Init stub f args).2.calls = putsOf stub.calls := by
    intro f e h
    rw [Init_error_unchanged stub f args e hput h]
    exact ⟨rfl, rfl⟩
  have hW : ∀ e, (write stub args).1 = .error e →
      (write stub args).2.ledger = stub.ledger ∧
      putsOf (write stub args).2.calls = putsOf stub.calls := by
    intro e h
    rw [write_error_unchanged stub args e hput h]
    exact ⟨rfl, rfl⟩
  refine ⟨?_, hI function, hW, read_writes_nothing stub args, ?_, ?_⟩
  · rcases transfer_result stub args with h | ⟨e, h⟩
    · exact Or.inl h
    · exact Or.inr ⟨e, h, hT e h⟩
  · intro e
    unfold Invoke
    by_cases h1 : function = "init"
    · simp only [h1, if_true]; exact hI "init" e
    · by_cases h2 : function = "write"
      · simp only [h2, if_true]
        intro h
        exact hW e (by simpa using h)
      · by_cases h3 : function = "transfer"
        · simp only [h3, if_true]
          intro h
          exact hT e (by simpa using h)
        · simp [h1, h2, h3]
  · unfold Query
    by_cases h1 : function = "read"
    · simp only [h1, if_true]; exact read_writes_nothing stub args
    · simp [h1]

/-- C4, at a transfer of more than the source holds: it fails and the ledger is as it
was. -/
theorem failures_precede_writes_witness :
    stubAB.putNeverFails ∧
    ((transfer stubAB ["A", "B", "5000"]).1 = .ok none ∨
      ∃ e, (transfer stubAB ["A", "B", "5000"]).1 = .error e ∧
        (transfer stubAB ["A", "B", "5000"]).2.ledger = stubAB.ledger ∧
        putsOf (transfer stubAB ["A", "B", "5000"]).2.calls = putsOf stubAB.calls) :=
  ⟨fun _ _ _ => rfl,
    (failures_precede_writes stubAB "transfer" ["A", "B", "5000"] (fun _ _ _ => rfl)).1⟩

/-- C5, amended.  With an amount string that is not an integer literal, `transfer`
fails, issues no `PutState` and leaves the ledger as it was; when both keys hold
accounts, the two reads are made and the failure is the amount-parsing error. -/
theorem transfer_unparsable_amount (stub : Stub) (fromKey toKey amountStr : String)
    (hamt : ∀ n, Atoi amountStr ≠ .ok n) :
    (∃ e, (transfer stub [fromKey, toKey, amountStr]).1 = .error e) ∧
    (transfer stub [fromKey, toKey, amountStr]).2.ledger = stub.ledger ∧
    putsOf (transfer stub [fromKey, toKey, amountStr]).2.calls = putsOf stub.calls ∧
    (∀ src dst, holdsAccount stub fromKey src → holdsAccount stub toKey dst →
      (transfer stub [fromKey, toKey, amountStr]).1 =
        .error (Error.new "Enter an integer value in the 'Amount'") ∧
      (transfer stub [fromKey, toKey, amountStr]).2.calls =
        stub.calls ++ [Call.getState fromKey, Call.getState toKey]) := by
  obtain ⟨h1, h2, h3⟩ := transfer_unparsable stub fromKey toKey amountStr hamt
  refine ⟨h1, h2, h3, ?_⟩
  intro src dst hsrc hdst
  obtain ⟨hg1, hsrc⟩ := hsrc
  obtain ⟨hg2, hdst⟩ := hdst
  have hg1 : ∀ history, stub.getErr history fromKey = none := hg1
  have hg2 : ∀ history, stub.getErr history toKey = none := hg2
  cases h : Atoi amountStr with
  | ok amount => exact absurd h (hamt amount)
  | error e =>
    simp only [transfer, Stub.GetState, hg1, hg2, hsrc, hdst, h]
    simp

/-- C5, at the amount `"abc"` between the accounts `A` and `B`. -/
theorem transfer_unparsable_amount_witness :
    (∀ n, Atoi "abc" ≠ .ok n) ∧
    (transfer stubAB ["A", "B", "abc"]).1 =
      .error (Error.new "Enter an integer value in the 'Amount'") ∧
    (transfer stubAB ["A", "B", "abc"]).2.ledger = stubAB.ledger ∧
    (transfer stubAB ["A", "B", "abc"]).2.calls =
      stubAB.calls ++ [Call.getState "A", Call.getState "B"] := by
  have hbad : ∀ n, Atoi "abc" ≠ .ok n := by
    intro n h
    have e : Atoi "abc" = .error "invalid syntax" := by decide
    rw [e] at h
    cases h
  have hA : holdsAccount stubAB "A" ⟨"A", 1000⟩ := ⟨fun _ => rfl, by decide⟩
  have hB : holdsAccount stubAB "B" ⟨"B", 1000⟩ := ⟨fun _ => rfl, by decide⟩
  have h := transfer_unparsable_amount stubAB "A" "B" "abc" hbad
  exact ⟨hbad, (h.2.2.2 _ _ hA hB).1, h.2.1, (h.2.2.2 _ _ hA hB).2⟩

/-- C5 as stated fails on an empty ledger: with the amount `"abc"`, `transfer` reads the
source key and fails with the deserialization error of the source account, not with
the amount-parsing error. -/
theorem transfer_unparsable_amount_counterexample :
    Atoi "abc" = .error "invalid syntax" ∧
    (transfer stubEmpty ["A", "B", "abc"]).1 =
      .error (Error.new "Failed to marshal string to struct of accFrom") ∧
    (transfer stubEmpty ["A", "B", "abc"]).1 ≠
      .error (Error.new "Enter an integer value in the 'Amount'") ∧
    (transfer stubEmpty ["A", "B", "abc"]).2.calls = [Call.getState "A"] := by
  decide

/-- C6, amended.  When `fromKey` can be read and the value under it is a JSON object with
a member of the wrong type (a `name` that is neither a string nor `null`, a `balance`
that is neither `null` nor an integer literal within the range of `int`), or when both
keys can be read and the value under `toKey` is such an object, `transfer` fails with a
deserialization error, issues no `PutState` and leaves the ledger as it was. -/
theorem transfer_wrong_type (stub : Stub) (fromKey toKey amountStr : String)
    (hfrom : stub.readable fromKey)
    (hbad : malformedRecord (stub.ledger fromKey) ∨
      (stub.readable toKey ∧ malformedRecord (stub.ledger toKey))) :
    ((transfer stub [fromKey, toKey, amountStr]).1 =
        .error (Error.new "Failed to marshal string to struct of accFrom") ∨
      (transfer stub [fromKey, toKey, amountStr]).1 =
        .error (Error.new "Failed to marshal string to struct of accTo")) ∧
    (transfer stub [fromKey, toKey, amountStr]).2.ledger = stub.ledger ∧
    putsOf (transfer stub [fromKey, toKey, amountStr]).2.calls = putsOf stub.calls := by
  have hg1 : ∀ history, stub.getErr history fromKey = none := hfrom
  simp only [transfer, Stub.GetState, hg1]
  cases hsrc : Unmarshal (stub.ledger fromKey) Account.zero with
  | error e => simp [putsOf_append, putsOf]
  | ok accFrom =>
    rcases hbad with hbad | ⟨hto, hbad⟩
    · rw [Unmarshal_malformed _ _ hbad] at hsrc
      cases hsrc
    · have hg2 : ∀ history, stub.getErr history toKey = none := hto
      simp only [hg2, Unmarshal_malformed _ _ hbad]
      simp [putsOf_append, putsOf]

/-- C6, at a record whose balance is the string `"1000"`. -/
theorem transfer_wrong_type_witness :
    stubBadType.ledger "A" =
      some "\x7b\"name\":\"A\",\"balance\":\"1000\"\x7d".toList ∧
    malformedRecord (stubBadType.ledger "A") ∧
    ((transfer stubBadType ["A", "B", "300"]).1 =
        .error (Error.new "Failed to marshal string to struct of accFrom") ∨
      (transfer stubBadType ["A", "B", "300"]).1 =
        .error (Error.new "Failed to marshal string to struct of accTo")) ∧
    (transfer stubBadType ["A", "B", "300"]).2.ledger = stubBadType.ledger ∧
    putsOf (transfer stubBadType ["A", "B", "300"]).2.calls = putsOf stubBadType.calls := by
  have hbad : malformedRecord (stubBadType.ledger "A") := by
    refine ⟨[("name".toList, JValue.string "A".toList),
      ("balance".toList, JValue.string "1000".toList)], by decide,
      ("balance".toList, JValue.string "1000".toList), by decide, Or.inr ⟨by decide, ?_, ?_⟩⟩
    · intro h; cases h
    · intro lit n h; cases h
  exact ⟨by decide, hbad,
    transfer_wrong_type stubBadType "A" "B" "300" (fun _ => rfl) (Or.inl hbad)⟩

/-- C6 as stated fails for absent fields.  The record under `A` lacks `balance` and the
record under `B` lacks `name`; both deserialize, the missing field being zero, and
`transfer(B, A, "300")` succeeds and rewrites both records. -/
theorem transfer_wrong_type_counterexample :
    stubPartial.ledger "A" = some "\x7b\"name\":\"A\"\x7d".toList ∧
    stubPartial.ledger "B" = some "\x7b\"balance\":1000\x7d".toList ∧
    Unmarshal (stubPartial.ledger "A") Account.zero = .ok ⟨"A", 0⟩ ∧
    Unmarshal (stubPartial.ledger "B") Account.zero = .ok ⟨"", 1000⟩ ∧
    (transfer stubPartial ["B", "A", "300"]).1 = .ok none ∧
    (transfer stubPartial ["B", "A", "300"]).2.ledger "A" =
      some "\x7b\"name\":\"A\",\"balance\":300\x7d".toList ∧
    (transfer stubPartial ["B", "A", "300"]).2.ledger "B" =
      some "\x7b\"name\":\"\",\"balance\":700\x7d".toList := by
  decide

/-- C7.  On a host that refuses no `PutState`, `Init` without arguments succeeds and
issues exactly three `PutState` calls, for `Vatsala`, `Harish` and `Narayan` in this
order; the value written under each key is the JSON text of the account with that
name and balance 1000, it deserializes to that account, and every other key keeps its
value. -/
theorem Init_seeds (stub : Stub) (function : String) (hput : stub.putNeverFails) :
    (Init stub function []).1 = .ok none ∧
    putsOf (Init stub function []).2.calls = putsOf stub.calls ++
      [("Vatsala", "\x7b\"name\":\"Vatsala\",\"balance\":1000\x7d".toList),
       ("Harish", "\x7b\"name\":\"Harish\",\"balance\":1000\x7d".toList),
       ("Narayan", "\x7b\"name\":\"Narayan\",\"balance\":1000\x7d".toList)] ∧
    (Init stub function []).2.ledger "Vatsala" =
      some "\x7b\"name\":\"Vatsala\",\"balance\":1000\x7d".toList ∧
    (Init stub function []).2.ledger "Harish" =
      some "\x7b\"name\":\"Harish\",\"balance\":1000\x7d".toList ∧
    (Init stub function []).2.ledger "Narayan" =
      some "\x7b\"name\":\"Narayan\",\"balance\":1000\x7d".toList ∧
    Unmarshal ((Init stub function []).2.ledger "Vatsala") Account.zero =
      .ok ⟨"Vatsala", 1000⟩ ∧
    Unmarshal ((Init stub function []).2.ledger "Harish") Account.zero =
      .ok ⟨"Harish", 1000⟩ ∧
    Unmarshal ((Init stub function []).2.ledger "Narayan") Account.zero =
      .ok ⟨"Narayan", 1000⟩ ∧
    (∀ k, k ≠ "Vatsala" → k ≠ "Harish" → k ≠ "Narayan" →
      (Init stub function []).2.ledger k = stub.ledger k) := by
  have hp : ∀ history key value, stub.putErr history key value = none := hput
  have e1 : encodeAccount ⟨"Vatsala", 1000⟩ =
      "\x7b\"name\":\"Vatsala\",\"balance\":1000\x7d".toList := by decide
  have e2 : encodeAccount ⟨"Harish", 1000⟩ =
      "\x7b\"name\":\"Harish\",\"balance\":1000\x7d".toList := by decide
  have e3 : encodeAccount ⟨"Narayan", 1000⟩ =
      "\x7b\"name\":\"Narayan\",\"balance\":1000\x7d".toList := by decide
  have u1 : Unmarshal (some (encodeAccount ⟨"Vatsala", 1000⟩)) Account.zero =
      .ok ⟨"Vatsala", 1000⟩ := by decide
  have u2 : Unmarshal (some (encodeAccount ⟨"Harish", 1000⟩)) Account.zero =
      .ok ⟨"Harish", 1000⟩ := by decide
  have u3 : Unmarshal (some (encodeAccount ⟨"Narayan", 1000⟩)) Account.zero =
      .ok ⟨"Narayan", 1000⟩ := by decide
  have n1 : ("Vatsala" : String) ≠ "Harish" := by decide
  have n2 : ("Vatsala" : String) ≠ "Narayan" := by decide
  have n3 : ("Harish" : String) ≠ "Narayan" := by decide
  have hrun : Init stub function [] = (.ok none,
      { stub with
        calls := stub.calls ++ [Call.putState "Vatsala" (encodeAccount ⟨"Vatsala", 1000⟩),
          Call.putState "Harish" (encodeAccount ⟨"Harish", 1000⟩),
          Call.putState "Narayan" (encodeAccount ⟨"Narayan", 1000⟩)]
        ledger := fun k =>
          if k = "Narayan" then some (encodeAccount ⟨"Narayan", 1000⟩)
          else if k = "Harish" then some (encodeAccount ⟨"Harish", 1000⟩)
          else if k = "Vatsala" then some (encodeAccount ⟨"Vatsala", 1000⟩)
          else stub.ledger k }) := by
    simp only [Init, Marshal, Stub.PutState, hp]
    simp
  rw [hrun]
  refine ⟨rfl, ?_, ?_, ?_, ?_, ?_, ?_, ?_, ?_⟩
  · simp only [putsOf_append, putsOf, e1, e2, e3]
  · simp only [if_neg n1, if_neg n2, if_true, e1]
  · simp only [if_neg n3, if_true, e2]
  · simp only [if_true, e3]
  · simp only [if_neg n1, if_neg n2, if_true]; exact u1
  · simp only [if_neg n3, if_true]; exact u2
  · simp only [if_true]; exact u3
  · intro k h1 h2 h3
    simp only [if_neg h1, if_neg h2, if_neg h3]

/-- C7, on the empty ledger. -/
theorem Init_seeds_witness :
    stubEmpty.putNeverFails ∧
    (Init stubEmpty "init" []).1 = .ok none ∧
    putsOf (Init stubEmpty "init" []).2.calls = putsOf stubEmpty.calls ++
      [("Vatsala", "\x7b\"name\":\"Vatsala\",\"balance\":1000\x7d".toList),
       ("Harish", "\x7b\"name\":\"Harish\",\"balance\":1000\x7d".toList),
       ("Narayan", "\x7b\"name\":\"Narayan\",\"balance\":1000\x7d".toList)] :=
  ⟨fun _ _ _ => rfl, (Init_seeds stubEmpty "init" (fun _ _ _ => rfl)).1,
    (Init_seeds stubEmpty "init" (fun _ _ _ => rfl)).2.1⟩

/-- C8.  With a non-empty argument list `Init` fails with `No arguments required` and
hands the stub back untouched: no call is made on it.  And `Init` fails with that
error only then: with an empty argument list its result is success or an error of the
host. -/
theorem Init_rejects_arguments (stub : Stub) (function : String) (args : List String) :
    (args ≠ [] →
      Init stub function args = (.error (Error.new "No arguments required"), stub)) ∧
    ((Init stub function args).1 = .error (Error.new "No arguments required") → args ≠ []) ∧
    (args = [] → (Init stub function args).1 = .ok none ∨
      ∃ e, (Init stub function args).1 = .error (Error.host e)) := by
  have hempty : (Init stub function []).1 = .ok none ∨
      ∃ e, (Init stub function []).1 = .error (Error.host e) := by
    simp only [Init, Marshal, List.length_nil, ne_eq, not_true_eq_false, if_false]
    split
    · rename_i err stub1 heq
      obtain ⟨e, he⟩ := PutState_error_host _ _ _ _ _ heq
      exact Or.inr ⟨e, by rw [he]⟩
    · split
      · rename_i err stub2 heq
        obtain ⟨e, he⟩ := PutState_error_host _ _ _ _ _ heq
        exact Or.inr ⟨e, by rw [he]⟩
      · split
        · rename_i err stub3 heq
          obtain ⟨e, he⟩ := PutState_error_host _ _ _ _ _ heq
          exact Or.inr ⟨e, by rw [he]⟩
        · exact Or.inl rfl
  refine ⟨?_, ?_, ?_⟩
  · intro h
    cases args with
    | nil => exact absurd rfl h
    | cons a rest => rfl
  · intro h hnil
    subst hnil
    rcases hempty with h1 | ⟨e, h1⟩
    · rw [h1] at h; cases h
    · rw [h1] at h; cases h
  · intro h
    subst h
    exact hempty

/-- C8, at one argument: the error, and the stub as it was. -/
theorem Init_rejects_arguments_witness :
    Init stubAB "init" ["x"] = (.error (Error.new "No arguments required"), stubAB) ∧
    (Init stubAB "init" []).1 = .ok none :=
  ⟨(Init_rejects_arguments stubAB "init" ["x"]).1 (by decide), by decide⟩

/-- C9, amended.  After a successful `write` of `value` under `key`, a `read` of `key`
whose `GetState` the host accepts succeeds and returns exactly the bytes of `value`. -/
theorem read_after_write (stub : Stub) (key value : String)
    (hw : (write stub [key, value]).1 = .ok none)
    (hread : (write stub [key, value]).2.acceptsGet key) :
    (read (write stub [key, value]).2 [key]).1 = .ok (some value.toList) := by
  revert hw hread
  simp only [write, Stub.PutState, Stub.acceptsGet]
  cases stub.putErr stub.calls key value.toList with
  | some e => intro hw; cases hw
  | none =>
    intro _ hread
    simp only [] at hread
    simp only [read, Stub.GetState, hread]
    rfl

/-- C9, at the key `k` and the value `v` on the empty ledger. -/
theorem read_after_write_witness :
    (write stubEmpty ["k", "v"]).1 = .ok none ∧
    (write stubEmpty ["k", "v"]).2.acceptsGet "k" ∧
    (read (write stubEmpty ["k", "v"]).2 ["k"]).1 = .ok (some "v".toList) :=
  ⟨by decide, rfl, read_after_write stubEmpty "k" "v" (by decide) rfl⟩

/-- C9 as stated fails on a host that refuses `GetState`: the `write` succeeds and the
value is in the ledger, but the `read` that follows fails. -/
theorem read_after_write_counterexample :
    (write stubUnreadable ["k", "v"]).1 = .ok none ∧
    (write stubUnreadable ["k", "v"]).2.ledger "k" = some "v".toList ∧
    (read (write stubUnreadable ["k", "v"]).2 ["k"]).1 =
      .error (Error.new "\x7b\"Error\":\"Failed to get state for k\"\x7d") := by
  decide

/-- C10.  With an argument list whose length is not 2, `write` fails with its
argument-count error and hands the stub back untouched.  With two arguments, on a host
that refuses no `PutState`, it succeeds, issues the one `PutState` of the bytes of the
value under the key, and the ledger afterwards maps the key to those bytes and every
other key to what it held; the value is not inspected. -/
theorem write_spec (stub : Stub) (args : List String) :
    (args.length ≠ 2 →
      write stub args =
        (.error (Error.new
          "Incorrect number of arguments. Expecting 2. name of the key and value to set"),
          stub)) ∧
    (∀ key value, args = [key, value] → stub.putNeverFails →
      (write stub args).1 = .ok none ∧
      (write stub args).2.ledger =
        (fun k => if k = key then some value.toList else stub.ledger k) ∧
      (write stub args).2.ledger key = some value.toList ∧
      (∀ k, k ≠ key → (write stub args).2.ledger k = stub.ledger k) ∧
      (write stub args).2.calls = stub.calls ++ [Call.putState key value.toList]) := by
  constructor
  · intro h
    rcases args with _ | ⟨a, _ | ⟨b, _ | ⟨c, rest⟩⟩⟩
    · rfl
    · rfl
    · exact absurd rfl h
    · rfl
  · intro key value hargs hput
    have hp : ∀ history key value, stub.putErr history key value = none := hput
    subst hargs
    simp only [write, Stub.PutState, hp]
    refine ⟨trivial, trivial, ?_, ?_, trivial⟩
    · simp
    · intro k hk
      simp [hk]

/-- C10, at a value that is not an account, written over the account `A`. -/
theorem write_spec_witness :
    (write stubAB ["A"]).1 =
      .error (Error.new
        "Incorrect number of arguments. Expecting 2. name of the key and value to set") ∧
    (write stubAB ["A", "not an account"]).1 = .ok none ∧
    (write stubAB ["A", "not an account"]).2.ledger "A" = some "not an account".toList ∧
    (write stubAB ["A", "not an account"]).2.ledger "B" = stubAB.ledger "B" :=
  ⟨by rw [(write_spec stubAB ["A"]).1 (by decide)],
    ((write_spec stubAB ["A", "not an account"]).2 "A" "not an account" rfl
      (fun _ _ _ => rfl)).1,
    ((write_spec stubAB ["A", "not an account"]).2 "A" "not an account" rfl
      (fun _ _ _ => rfl)).2.2.1,
    ((write_spec stubAB ["A", "not an account"]).2 "A" "not an account" rfl
      (fun _ _ _ => rfl)).2.2.2.1 "B" (by decide)⟩

/-- C11, amended.  With an argument list whose length is not 1, `read` fails with its
argument-count error and hands the stub back untouched.  With one argument, when the
host refuses the `GetState` the failure is the payload that names the key, and when the
host accepts it the result is what the ledger holds under the key, unparsed: the stored
bytes, or no bytes at all (and no error) for a key that is absent. -/
theorem read_spec (stub : Stub) (args : List String) :
    (args.length ≠ 1 →
      read stub args =
        (.error (Error.new "Incorrect number of arguments. Expecting name of the key to query"),
          stub)) ∧
    (∀ key, args = [key] →
      (∀ e, stub.getErr stub.calls key = some e →
        (read stub args).1 =
          .error (Error.new ("\x7b\"Error\":\"Failed to get state for " ++ key ++ "\"\x7d"))) ∧
      (stub.getErr stub.calls key = none →
        (read stub args).1 = .ok (stub.ledger key) ∧
        (∀ bytes, stub.ledger key = some bytes → (read stub args).1 = .ok (some bytes)) ∧
        (stub.ledger key = none → (read stub args).1 = .ok none)) ∧
      (read stub args).2.ledger = stub.ledger ∧
      (read stub args).2.calls = stub.calls ++ [Call.getState key]) := by
  constructor
  · intro h
    rcases args with _ | ⟨a, _ | ⟨b, rest⟩⟩
    · rfl
    · exact absurd rfl h
    · rfl
  · intro key hargs
    subst hargs
    refine ⟨?_, ?_, ?_, ?_⟩
    · intro e he
      simp only [read, Stub.GetState, he]
    · intro he
      have h1 : (read stub [key]).1 = .ok (stub.ledger key) := by
        simp only [read, Stub.GetState, he]
      refine ⟨h1, ?_, ?_⟩
      · intro bytes hb; rw [h1, hb]
      · intro hb; rw [h1, hb]
    · simp only [read, Stub.GetState]
      cases stub.getErr stub.calls key <;> rfl
    · simp only [read, Stub.GetState]
      cases stub.getErr stub.calls key <;> rfl

/-- C11, at the three cases: two arguments, a refused read of `k`, an accepted read of
`A`. -/
theorem read_spec_witness :
    (read stubAB ["A", "B"]).1 =
      .error (Error.new "Incorrect number of arguments. Expecting name of the key to query") ∧
    (read stubUnreadable ["k"]).1 =
      .error (Error.new "\x7b\"Error\":\"Failed to get state for k\"\x7d") ∧
    (read stubAB ["A"]).1 = .ok (some "\x7b\"name\":\"A\",\"balance\":1000\x7d".toList) :=
  ⟨by rw [(read_spec stubAB ["A", "B"]).1 (by decide)],
    ((read_spec stubUnreadable ["k"]).2 "k" rfl).1 "ledger is unavailable" rfl,
    (((read_spec stubAB ["A"]).2 "A" rfl).2.1 rfl).2.1 _ (by decide)⟩

/-- C11 as stated fails for an absent key: on the empty ledger, whose host refuses
nothing, `read` of `k` succeeds and returns no bytes. -/
theorem read_spec_counterexample :
    stubEmpty.ledger "k" = none ∧
    (read stubEmpty ["k"]).1 = .ok none ∧
    (read stubEmpty ["k"]).1 ≠
      .error (Error.new "\x7b\"Error\":\"Failed to get state for k\"\x7d") := by
  decide

/-- C12, amended.  `Invoke` hands `init` to `Init`, `write` to `write` and `transfer` to
`transfer`; `Query` hands `read` to `read`.  For every other function name each of them
fails with the error that names the function, and hands the stub back untouched. -/
theorem dispatch_spec (stub : Stub) (function : String) (args : List String) :
    Invoke stub "init" args = Init stub "init" args ∧
    Invoke stub "write" args = write stub args ∧
    Invoke stub "transfer" args = transfer stub args ∧
    Query stub "read" args = read stub args ∧
    (function ≠ "init" → function ≠ "write" → function ≠ "transfer" →
      Invoke stub function args =
        (.error (Error.new ("Received unknown function invocation: " ++ function)), stub)) ∧
    (function ≠ "read" →
      Query stub function args =
        (.error (Error.new ("Received unknown function query: " ++ function)), stub)) := by
  refine ⟨?_, ?_, ?_, ?_, ?_, ?_⟩
  · simp [Invoke]
  · simp [Invoke]
  · simp [Invoke]
  · simp [Query]
  · intro h1 h2 h3
    simp [Invoke, h1, h2, h3]
  · intro h1
    simp [Query, h1]

/-- C12, at the unknown names `delete` and `write`. -/
theorem dispatch_spec_witness :
    Invoke stubAB "delete" ["A"] =
      (.error (Error.new "Received unknown function invocation: delete"), stubAB) ∧
    Query stubAB "write" ["A", "x"] =
      (.error (Error.new "Received unknown function query: write"), stubAB) :=
  ⟨(dispatch_spec stubAB "delete" ["A"]).2.2.2.2.1 (by decide) (by decide) (by decide),
    (dispatch_spec stubAB "write" ["A", "x"]).2.2.2.2.2 (by decide)⟩

/-- C12 as stated fails for the name `init`, which is neither `write` nor `transfer`:
`Invoke` does not answer with the unknown-function error but runs `Init`, which
writes the three seed records. -/
theorem dispatch_spec_counterexample :
    (Invoke stubEmpty "init" []).1 = .ok none ∧
    (Invoke stubEmpty "init" []).1 ≠
      .error (Error.new "Received unknown function invocation: init") ∧
    stubEmpty.ledger "Vatsala" = none ∧
    (Invoke stubEmpty "init" []).2.ledger "Vatsala" =
      some "\x7b\"name\":\"Vatsala\",\"balance\":1000\x7d".toList ∧
    putsOf (Invoke stubEmpty "init" []).2.calls =
      [("Vatsala", "\x7b\"name\":\"Vatsala\",\"balance\":1000\x7d".toList),
       ("Harish", "\x7b\"name\":\"Harish\",\"balance\":1000\x7d".toList),
       ("Narayan", "\x7b\"name\":\"Narayan\",\"balance\":1000\x7d".toList)] := by
  decide

/-- C13.  Whatever the arguments and however `transfer` ends: a key holds a value
afterwards exactly when it held one before; every key other than the source and the
destination key holds its value from before; and when `transfer` succeeds it returns no
value, and the records then stored under the two keys deserialize with the names that
the records stored there before deserialized with. -/
theorem transfer_frame (stub : Stub) (args : List String) :
    (∀ k, ((transfer stub args).2.ledger k).isSome = (stub.ledger k).isSome) ∧
    (∀ k, (∀ fromKey toKey amountStr, args = [fromKey, toKey, amountStr] →
        k ≠ fromKey ∧ k ≠ toKey) →
      (transfer stub args).2.ledger k = stub.ledger k) ∧
    (∀ v, (transfer stub args).1 = .ok v →
      v = none ∧
      ∃ fromKey toKey amountStr src dst src1 dst1,
        args = [fromKey, toKey, amountStr] ∧
        Unmarshal (stub.ledger fromKey) Account.zero = .ok src ∧
        Unmarshal (stub.ledger toKey) Account.zero = .ok dst ∧
        Unmarshal ((transfer stub args).2.ledger fromKey) Account.zero = .ok src1 ∧
        Unmarshal ((transfer stub args).2.ledger toKey) Account.zero = .ok dst1 ∧
        src1.Name = src.Name ∧ dst1.Name = dst.Name) := by
  rcases args with _ | ⟨a, _ | ⟨b, _ | ⟨c, _ | ⟨d, rest⟩⟩⟩⟩
  · exact ⟨fun _ => rfl, fun _ _ => rfl, fun v h => by cases h⟩
  · exact ⟨fun _ => rfl, fun _ _ => rfl, fun v h => by cases h⟩
  · exact ⟨fun _ => rfl, fun _ _ => rfl, fun v h => by cases h⟩
  · rcases transfer_outcome stub a b c with ⟨e, h1, h2⟩ | ⟨src, dst, amount, e, hs, hd, ha, hb,
        h1, h2⟩ | ⟨src, dst, amount, hs, hd, ha, hb, h1, h2⟩
    · rw [h1, h2]
      exact ⟨fun _ => rfl, fun _ _ => rfl, fun v h => by cases h⟩
    · rw [h1, h2]
      refine ⟨?_, ?_, fun v h => by cases h⟩
      · intro k
        by_cases hk : k = a
        · subst hk
          simp only [if_true, Option.isSome_some]
          exact (Unmarshal_ok_isSome _ _ _ hs).symm
        · simp only [hk, if_false]
      · intro k hk
        have := (hk a b c rfl).1
        simp only [this, if_false]
    · rw [h1, h2]
      refine ⟨?_, ?_, ?_⟩
      · intro k
        by_cases hkb : k = b
        · subst hkb
          simp only [if_true, Option.isSome_some]
          exact (Unmarshal_ok_isSome _ _ _ hd).symm
        · by_cases hka : k = a
          · subst hka
            simp only [hkb, if_false, if_true, Option.isSome_some]
            exact (Unmarshal_ok_isSome _ _ _ hs).symm
          · simp only [hkb, hka, if_false]
      · intro k hk
        have h3 := (hk a b c rfl).1
        have h4 := (hk a b c rfl).2
        simp only [h3, h4, if_false]
      · intro v hv
        have hvn : v = none := by
          simp only [Except.ok.injEq] at hv
          exact hv.symm
        refine ⟨hvn, a, b, c, src, dst, ?_⟩
        have hd1 : Unmarshal (some (encodeAccount
            { dst with Balance := wrapInt (dst.Balance + amount) })) Account.zero =
            .ok { dst with Balance := wrapInt (dst.Balance + amount) } :=
          Unmarshal_Marshal _ _ (wrapInt_inRange _)
        have hs1 : Unmarshal (some (encodeAccount
            { src with Balance := wrapInt (src.Balance - amount) })) Account.zero =
            .ok { src with Balance := wrapInt (src.Balance - amount) } :=
          Unmarshal_Marshal _ _ (wrapInt_inRange _)
        by_cases hab : a = b
        · subst hab
          have hsd : src = dst := by
            rw [hs] at hd
            simp only [Except.ok.injEq] at hd
            exact hd
          subst hsd
          exact ⟨{ src with Balance := wrapInt (src.Balance + amount) },
            { src with Balance := wrapInt (src.Balance + amount) }, rfl, hs, hs,
            by simp only [if_true]; exact hd1, by simp only [if_true]; exact hd1, rfl, rfl⟩
        · exact ⟨{ src with Balance := wrapInt (src.Balance - amount) },
            { dst with Balance := wrapInt (dst.Balance + amount) }, rfl, hs, hd,
            by simp only [hab, if_false, if_true]; exact hs1,
            by simp only [if_true]; exact hd1, rfl, rfl⟩
  · exact ⟨fun _ => rfl, fun _ _ => rfl, fun v h => by cases h⟩

/-- C13, at the example transfer of 300 from `A` to `B`: the untouched key `C` is absent
before and after, and the rewritten records keep their names. -/
theorem transfer_frame_witness :
    (transfer stubAB ["A", "B", "300"]).1 = .ok none ∧
    ((transfer stubAB ["A", "B", "300"]).2.ledger "C").isSome = (stubAB.ledger "C").isSome ∧
    (transfer stubAB ["A", "B", "300"]).2.ledger "C" = stubAB.ledger "C" ∧
    Unmarshal ((transfer stubAB ["A", "B", "300"]).2.ledger "A") Account.zero =
      .ok ⟨"A", 700⟩ ∧
    Unmarshal ((transfer stubAB ["A", "B", "300"]).2.ledger "B") Account.zero =
      .ok ⟨"B", 1300⟩ :=
  ⟨by decide, (transfer_frame stubAB ["A", "B", "300"]).1 "C",
    (transfer_frame stubAB ["A", "B", "300"]).2.1 "C" (fun f t a h => by
      simp only [List.cons.injEq, and_true] at h
      obtain ⟨h1, h2, _⟩ := h
      subst h1 h2
      exact ⟨by decide, by decide⟩),
    by decide, by decide⟩

/-- C14, amended.  Let both keys hold accounts and the amount parse and pass the balance
check, so that `transfer` reaches its writes.  If the host refuses the `PutState` of the
source record, `transfer` returns that error of the host, the ledger is as it was and
no `PutState` for the destination is issued.  If the host accepts it and refuses the
`PutState` of the destination record, `transfer` returns that error of the host as it
is, the ledger holds the debited source record under the source key and every other
key holds its value from before; so for distinct keys the destination record keeps its
value from before the call. -/
theorem transfer_no_compensation (stub : Stub) (fromKey toKey amountStr : String)
    (src dst : Account) (amount : Int)
    (hsrc : holdsAccount stub fromKey src) (hdst : holdsAccount stub toKey dst)
    (hamt : Atoi amountStr = .ok amount) (hbal : amount ≤ src.Balance) :
    (∀ e,
      stub.putErr (stub.calls ++ [Call.getState fromKey, Call.getState toKey]) fromKey
        (encodeAccount { src with Balance := wrapInt (src.Balance - amount) }) = some e →
      (transfer stub [fromKey, toKey, amountStr]).1 = .error (Error.host e) ∧
      (transfer stub [fromKey, toKey, amountStr]).2.ledger = stub.ledger ∧
      putsOf (transfer stub [fromKey, toKey, amountStr]).2.calls = putsOf stub.calls ++
        [(fromKey, encodeAccount { src with Balance := wrapInt (src.Balance - amount) })]) ∧
    (stub.putErr (stub.calls ++ [Call.getState fromKey, Call.getState toKey]) fromKey
        (encodeAccount { src with Balance := wrapInt (src.Balance - amount) }) = none →
      ∀ e,
      stub.putErr (stub.calls ++ [Call.getState fromKey, Call.getState toKey,
          Call.putState fromKey
            (encodeAccount { src with Balance := wrapInt (src.Balance - amount) })]) toKey
        (encodeAccount { dst with Balance := wrapInt (dst.Balance + amount) }) = some e →
      (transfer stub [fromKey, toKey, amountStr]).1 = .error (Error.host e) ∧
      (transfer stub [fromKey, toKey, amountStr]).2.ledger fromKey =
        some (encodeAccount { src with Balance := wrapInt (src.Balance - amount) }) ∧
      Unmarshal ((transfer stub [fromKey, toKey, amountStr]).2.ledger fromKey) Account.zero =
        .ok { src with Balance := wrapInt (src.Balance - amount) } ∧
      (∀ k, k ≠ fromKey → (transfer stub [fromKey, toKey, amountStr]).2.ledger k = stub.ledger k) ∧
      (fromKey ≠ toKey →
        (transfer stub [fromKey, toKey, amountStr]).2.ledger toKey = stub.ledger toKey) ∧
      putsOf (transfer stub [fromKey, toKey, amountStr]).2.calls = putsOf stub.calls ++
        [(fromKey, encodeAccount { src with Balance := wrapInt (src.Balance - amount) }),
         (toKey, encodeAccount { dst with Balance := wrapInt (dst.Balance + amount) })]) := by
  obtain ⟨hg1, hsrc⟩ := hsrc
  obtain ⟨hg2, hdst⟩ := hdst
  have hg1 : ∀ history, stub.getErr history fromKey = none := hg1
  have hg2 : ∀ history, stub.getErr history toKey = none := hg2
  constructor
  · intro e he
    have he1 : stub.putErr (stub.calls ++ [Call.getState fromKey] ++ [Call.getState toKey])
        fromKey (encodeAccount { src with Balance := wrapInt (src.Balance - amount) }) =
        some e := by
      simpa using he
    simp only [transfer, Stub.GetState, Stub.PutState, hg1, hg2, hsrc, hdst, hamt,
      not_lt.mpr hbal, if_false, Marshal, he1]
    simp [putsOf_append, putsOf]
  · intro h1 e he
    have h1a : stub.putErr (stub.calls ++ [Call.getState fromKey] ++ [Call.getState toKey])
        fromKey (encodeAccount { src with Balance := wrapInt (src.Balance - amount) }) =
        none := by
      simpa using h1
    have he1 : stub.putErr (stub.calls ++ [Call.getState fromKey] ++ [Call.getState toKey] ++
        [Call.putState fromKey
          (encodeAccount { src with Balance := wrapInt (src.Balance - amount) })])
        toKey (encodeAccount { dst with Balance := wrapInt (dst.Balance + amount) }) =
        some e := by
      simpa using he
    simp only [transfer, Stub.GetState, Stub.PutState, hg1, hg2, hsrc, hdst, hamt,
      not_lt.mpr hbal, if_false, Marshal, h1a, he1]
    refine ⟨trivial, ?_, ?_, ?_, ?_, ?_⟩
    · simp
    · simp only [if_true]
      exact Unmarshal_Marshal _ _ (wrapInt_inRange _)
    · intro k hk
      simp [hk]
    · intro hne
      simp [Ne.symm hne]
    · simp [putsOf_append, putsOf]

/-- C14, at a transfer of 300 from `A` to `B` on a host that accepts the first
`PutState` and refuses the second: the host's error comes back, `A` holds 700 and `B`
still holds its record of 1000. -/
theorem transfer_no_compensation_witness :
    holdsAccount stubOnePut "A" ⟨"A", 1000⟩ ∧ holdsAccount stubOnePut "B" ⟨"B", 1000⟩ ∧
    Atoi "300" = .ok 300 ∧
    (transfer stubOnePut ["A", "B", "300"]).1 = .error (Error.host "ledger is full") ∧
    (transfer stubOnePut ["A", "B", "300"]).2.ledger "A" =
      some (encodeAccount ⟨"A", wrapInt (1000 - 300)⟩) ∧
    Unmarshal ((transfer stubOnePut ["A", "B", "300"]).2.ledger "A") Account.zero =
      .ok ⟨"A", 700⟩ ∧
    (transfer stubOnePut ["A", "B", "300"]).2.ledger "B" = stubOnePut.ledger "B" := by
  have hA : holdsAccount stubOnePut "A" ⟨"A", 1000⟩ := ⟨fun _ => rfl, by decide⟩
  have hB : holdsAccount stubOnePut "B" ⟨"B", 1000⟩ := ⟨fun _ => rfl, by decide⟩
  have h := (transfer_no_compensation stubOnePut "A" "B" "300" ⟨"A", 1000⟩ ⟨"B", 1000⟩ 300
    hA hB (by decide) (by decide)).2 (by decide) "ledger is full" (by decide)
  exact ⟨hA, hB, by decide, h.1, h.2.1, h.2.2.1, h.2.2.2.2.1 (by decide)⟩

/-- C14 as stated fails when the source and the destination are the same key.  On a host
that accepts the first `PutState` and refuses the second, `transfer(A, A, "300")`
returns the host's error and leaves the debited record of 700 under `A`: the
destination record, which is the record under `A`, has not kept its value of 1000. -/
theorem transfer_no_compensation_counterexample :
    Unmarshal (stubOnePut.ledger "A") Account.zero = .ok ⟨"A", 1000⟩ ∧
    Atoi "300" = .ok 300 ∧
    putsOf (transfer stubOnePut ["A", "A", "300"]).2.calls =
      [("A", "\x7b\"name\":\"A\",\"balance\":700\x7d".toList),
       ("A", "\x7b\"name\":\"A\",\"balance\":1300\x7d".toList)] ∧
    (transfer stubOnePut ["A", "A", "300"]).1 = .error (Error.host "ledger is full") ∧
    (transfer stubOnePut ["A", "A", "300"]).2.ledger "A" =
      some "\x7b\"name\":\"A\",\"balance\":700\x7d".toList ∧
    (transfer stubOnePut ["A", "A", "300"]).2.ledger "A" ≠ stubOnePut.ledger "A" := by
  decide

/-- C15.  `Init` without arguments stops at the first `PutState` that the host refuses.
If it is the first, `Init` returns the host's error, the ledger is as it was and only
the write of `Vatsala` has been attempted.  If it is the second, the error is the
host's, the record of `Vatsala` is in the ledger, nothing else has changed and no write
of `Narayan` has been attempted.  If it is the third, the error is the host's and the
records of `Vatsala` and `Harish` are in the ledger. -/
theorem Init_stops_at_first_failure (stub : Stub) (function : String) :
    (∀ e, stub.putErr stub.calls "Vatsala" (encodeAccount ⟨"Vatsala", 1000⟩) = some e →
      (Init stub function []).1 = .error (Error.host e) ∧
      (Init stub function []).2.ledger = stub.ledger ∧
      putsOf (Init stub function []).2.calls =
        putsOf stub.calls ++ [("Vatsala", encodeAccount ⟨"Vatsala", 1000⟩)]) ∧
    (stub.putErr stub.calls "Vatsala" (encodeAccount ⟨"Vatsala", 1000⟩) = none →
      ∀ e, stub.putErr (stub.calls ++ [Call.putState "Vatsala" (encodeAccount ⟨"Vatsala", 1000⟩)])
        "Harish" (encodeAccount ⟨"Harish", 1000⟩) = some e →
      (Init stub function []).1 = .error (Error.host e) ∧
      (Init stub function []).2.ledger =
        (fun k => if k = "Vatsala" then some (encodeAccount ⟨"Vatsala", 1000⟩)
          else stub.ledger k) ∧
      putsOf (Init stub function []).2.calls =
        putsOf stub.calls ++ [("Vatsala", encodeAccount ⟨"Vatsala", 1000⟩),
          ("Harish", encodeAccount ⟨"Harish", 1000⟩)]) ∧
    (stub.putErr stub.calls "Vatsala" (encodeAccount ⟨"Vatsala", 1000⟩) = none →
      stub.putErr (stub.calls ++ [Call.putState "Vatsala" (encodeAccount ⟨"Vatsala", 1000⟩)])
        "Harish" (encodeAccount ⟨"Harish", 1000⟩) = none →
      ∀ e, stub.putErr (stub.calls ++ [Call.putState "Vatsala" (encodeAccount ⟨"Vatsala", 1000⟩),
          Call.putState "Harish" (encodeAccount ⟨"Harish", 1000⟩)])
        "Narayan" (encodeAccount ⟨"Narayan", 1000⟩) = some e →
      (Init stub function []).1 = .error (Error.host e) ∧
      (Init stub function []).2.ledger =
        (fun k => if k = "Harish" then some (encodeAccount ⟨"Harish", 1000⟩)
          else if k = "Vatsala" then some (encodeAccount ⟨"Vatsala", 1000⟩)
          else stub.ledger k) ∧
      putsOf (Init stub function []).2.calls =
        putsOf stub.calls ++ [("Vatsala", encodeAccount ⟨"Vatsala", 1000⟩),
          ("Harish", encodeAccount ⟨"Harish", 1000⟩),
          ("Narayan", encodeAccount ⟨"Narayan", 1000⟩)]) := by
  refine ⟨?_, ?_, ?_⟩
  · intro e h1
    simp only [Init, Marshal, Stub.PutState, h1, List.length_nil, ne_eq, not_true_eq_false,
      if_false]
    simp [putsOf_append, putsOf]
  · intro h1 e h2
    simp only [Init, Marshal, Stub.PutState, h1, h2, List.length_nil, ne_eq,
      not_true_eq_false, if_false]
    simp [putsOf_append, putsOf]
  · intro h1 h2 e h3
    have h3a : stub.putErr (stub.calls ++
        [Call.putState "Vatsala" (encodeAccount ⟨"Vatsala", 1000⟩)] ++
        [Call.putState "Harish" (encodeAccount ⟨"Harish", 1000⟩)])
        "Narayan" (encodeAccount ⟨"Narayan", 1000⟩) = some e := by
      simpa using h3
    simp only [Init, Marshal, Stub.PutState, h1, h2, h3a, List.length_nil, ne_eq,
      not_true_eq_false, if_false]
    simp [putsOf_append, putsOf]

/-- C15, on a host that accepts the first `PutState` and refuses the second: the record
of `Vatsala` is written, the writes of `Vatsala` and `Harish` are the only ones
attempted. -/
theorem Init_stops_at_first_failure_witness :
    (Init stubOnePut "init" []).1 = .error (Error.host "ledger is full") ∧
    (Init stubOnePut "init" []).2.ledger "Vatsala" =
      some "\x7b\"name\":\"Vatsala\",\"balance\":1000\x7d".toList ∧
    (Init stubOnePut "init" []).2.ledger "Harish" = none ∧
    (Init stubOnePut "init" []).2.ledger "Narayan" = none ∧
    putsOf (Init stubOnePut "init" []).2.calls =
      [("Vatsala", "\x7b\"name\":\"Vatsala\",\"balance\":1000\x7d".toList),
       ("Harish", "\x7b\"name\":\"Harish\",\"balance\":1000\x7d".toList)] := by
  have h := (Init_stops_at_first_failure stubOnePut "init").2.1 (by decide) "ledger is full"
    (by decide)
  refine ⟨h.1, ?_, ?_, ?_, ?_⟩
  · rw [h.2.1]; decide
  · rw [h.2.1]; decide
  · rw [h.2.1]; decide
  · rw [h.2.2]; decide

/-- C16, amended.  On a host that refuses no `PutState`, for a key that holds the account
`acc` and an amount string that parses to an `amount` with `0 ≤ amount ≤ acc.Balance`
such that `acc.Balance + amount` does not leave the range of `int`: `transfer` from the
key to itself succeeds, and the record then held under the key is `acc` with balance
`acc.Balance + amount`, which is not below the balance before; the second write, of the
credited record, has replaced the first, of the debited one. -/
theorem transfer_to_self (stub : Stub) (key amountStr : String) (acc : Account)
    (amount : Int) (hput : stub.putNeverFails) (hacc : holdsAccount stub key acc)
    (hamt : Atoi amountStr = .ok amount) (h0 : 0 ≤ amount) (hbal : amount ≤ acc.Balance)
    (hr : inRange (acc.Balance + amount)) :
    (transfer stub [key, key, amountStr]).1 = .ok none ∧
    holdsAccount (transfer stub [key, key, amountStr]).2 key
      { acc with Balance := acc.Balance + amount } ∧
    acc.Balance ≤ acc.Balance + amount ∧
    putsOf (transfer stub [key, key, amountStr]).2.calls = putsOf stub.calls ++
      [(key, encodeAccount { acc with Balance := wrapInt (acc.Balance - amount) }),
       (key, encodeAccount { acc with Balance := acc.Balance + amount })] := by
  rw [transfer_run stub key key amountStr acc acc amount hput hacc hacc hamt hbal]
  rw [wrapInt_of_inRange _ hr]
  refine ⟨rfl, ⟨hacc.1, ?_⟩, by omega, ?_⟩
  · simp only [if_true]
    exact Unmarshal_Marshal _ _ hr
  · simp [putsOf_append, putsOf]

/-- C16, at a transfer of 300 from `A` (1000) to `A`: 1300 afterwards. -/
theorem transfer_to_self_witness :
    stubAB.putNeverFails ∧ holdsAccount stubAB "A" ⟨"A", 1000⟩ ∧ Atoi "300" = .ok 300 ∧
    (transfer stubAB ["A", "A", "300"]).1 = .ok none ∧
    holdsAccount (transfer stubAB ["A", "A", "300"]).2 "A" ⟨"A", 1000 + 300⟩ := by
  have hA : holdsAccount stubAB "A" ⟨"A", 1000⟩ := ⟨fun _ => rfl, by decide⟩
  have h := transfer_to_self stubAB "A" "300" ⟨"A", 1000⟩ 300 (fun _ _ _ => rfl) hA
    (by decide) (by decide) (by decide) (by decide)
  exact ⟨fun _ _ _ => rfl, hA, by decide, h.1, h.2.1⟩

/-- C16 as stated fails in two ways.  With the largest `int` under `A`, a transfer of 1
from `A` to `A` succeeds and leaves the smallest `int` there, not the balance plus 1.
And on a host that refuses `PutState` the transfer does not succeed. -/
theorem transfer_to_self_counterexample :
    (Unmarshal (stubFullA.ledger "A") Account.zero = .ok ⟨"A", 9223372036854775807⟩ ∧
      Atoi "1" = .ok 1 ∧ (0 : Int) ≤ 1 ∧ (1 : Int) ≤ 9223372036854775807 ∧
      (transfer stubFullA ["A", "A", "1"]).1 = .ok none ∧
      Unmarshal ((transfer stubFullA ["A", "A", "1"]).2.ledger "A") Account.zero =
        .ok ⟨"A", -9223372036854775808⟩ ∧
      (-9223372036854775808 : Int) ≠ 9223372036854775807 + 1) ∧
    (Unmarshal (stubReadOnly.ledger "A") Account.zero = .ok ⟨"A", 1000⟩ ∧
      Atoi "300" = .ok 300 ∧
      (transfer stubReadOnly ["A", "A", "300"]).1 =
        .error (Error.host "ledger is read-only")) := by
  decide

/-- C17, amended.  On a host that refuses no `PutState`, for distinct keys that hold the
accounts `src` and `dst` and an amount string that parses to the negative integer `-n`
with `-n ≤ src.Balance`, such that neither `src.Balance + n` nor `dst.Balance - n`
leaves the range of `int`: `transfer` succeeds, the record then held under `fromKey` is
`src` with balance `src.Balance + n` and the record held under `toKey` is `dst` with
balance `dst.Balance - n`, whatever the balance of `dst` is: the source gains and the
destination loses. -/
theorem transfer_signed_amount (stub : Stub) (fromKey toKey amountStr : String)
    (src dst : Account) (n : Int) (hput : stub.putNeverFails)
    (hsrc : holdsAccount stub fromKey src) (hdst : holdsAccount stub toKey dst)
    (hne : fromKey ≠ toKey) (hn : 0 < n) (hamt : Atoi amountStr = .ok (-n))
    (hbal : -n ≤ src.Balance)
    (hr1 : inRange (src.Balance + n)) (hr2 : inRange (dst.Balance - n)) :
    (transfer stub [fromKey, toKey, amountStr]).1 = .ok none ∧
    holdsAccount (transfer stub [fromKey, toKey, amountStr]).2 fromKey
      { src with Balance := src.Balance + n } ∧
    holdsAccount (transfer stub [fromKey, toKey, amountStr]).2 toKey
      { dst with Balance := dst.Balance - n } ∧
    src.Balance < src.Balance + n ∧ dst.Balance - n < dst.Balance := by
  have e1 : src.Balance - -n = src.Balance + n := by omega
  have e2 : dst.Balance + -n = dst.Balance - n := by omega
  rw [transfer_run stub fromKey toKey amountStr src dst (-n) hput hsrc hdst hamt hbal]
  rw [e1, e2, wrapInt_of_inRange _ hr1, wrapInt_of_inRange _ hr2]
  refine ⟨rfl, ⟨hsrc.1, ?_⟩, ⟨hdst.1, ?_⟩, by omega, by omega⟩
  · simp only [if_neg hne, if_true]
    exact Unmarshal_Marshal _ _ hr1
  · simp only [if_true]
    exact Unmarshal_Marshal _ _ hr2

/-- C17, at a transfer of -500 from `A` (1000) to `B` (100): 1500 under `A` and -400
under `B`. -/
theorem transfer_signed_amount_witness :
    stubSmallB.putNeverFails ∧ holdsAccount stubSmallB "A" ⟨"A", 1000⟩ ∧
    holdsAccount stubSmallB "B" ⟨"B", 100⟩ ∧ Atoi "-500" = .ok (-500) ∧
    (transfer stubSmallB ["A", "B", "-500"]).1 = .ok none ∧
    holdsAccount (transfer stubSmallB ["A", "B", "-500"]).2 "A" ⟨"A", 1000 + 500⟩ ∧
    holdsAccount (transfer stubSmallB ["A", "B", "-500"]).2 "B" ⟨"B", 100 - 500⟩ := by
  have hA : holdsAccount stubSmallB "A" ⟨"A", 1000⟩ := ⟨fun _ => rfl, by decide⟩
  have hB : holdsAccount stubSmallB "B" ⟨"B", 100⟩ := ⟨fun _ => rfl, by decide⟩
  have h := transfer_signed_amount stubSmallB "A" "B" "-500" ⟨"A", 1000⟩ ⟨"B", 100⟩ 500
    (fun _ _ _ => rfl) hA hB (by decide) (by decide) (by decide) (by decide) (by decide)
    (by decide)
  exact ⟨fun _ _ _ => rfl, hA, hB, by decide, h.1, h.2.1, h.2.2.1⟩

/-- C17 as stated fails in two ways.  With the largest `int` under `A`, a transfer of -1
from `A` to `B` succeeds and leaves the smallest `int` under `A`, not the balance plus
1.  And on a host that refuses `PutState` the transfer does not succeed. -/
theorem transfer_signed_amount_counterexample :
    (Unmarshal (stubFullA.ledger "A") Account.zero = .ok ⟨"A", 9223372036854775807⟩ ∧
      Unmarshal (stubFullA.ledger "B") Account.zero = .ok ⟨"B", 1000⟩ ∧
      Atoi "-1" = .ok (-1) ∧ (-1 : Int) ≤ 9223372036854775807 ∧
      (transfer stubFullA ["A", "B", "-1"]).1 = .ok none ∧
      Unmarshal ((transfer stubFullA ["A", "B", "-1"]).2.ledger "A") Account.zero =
        .ok ⟨"A", -9223372036854775808⟩ ∧
      Unmarshal ((transfer stubFullA ["A", "B", "-1"]).2.ledger "B") Account.zero =
        .ok ⟨"B", 999⟩ ∧
      (-9223372036854775808 : Int) ≠ 9223372036854775807 + 1) ∧
    (Unmarshal (stubReadOnly.ledger "A") Account.zero = .ok ⟨"A", 1000⟩ ∧
      Unmarshal (stubReadOnly.ledger "B") Account.zero = .ok ⟨"B", 1000⟩ ∧
      Atoi "-300" = .ok (-300) ∧
      (transfer stubReadOnly ["A", "B", "-300"]).1 =
        .error (Error.host "ledger is read-only")) := by
  decide

/-- C18.  On a host that refuses no `PutState`, `Invoke` of `init` without arguments is
`Init` without arguments: it succeeds, and whatever the ledger held the three seed keys
afterwards hold their records of balance 1000.  And `Init` run a second time succeeds
and leaves the ledger that the first run left. -/
theorem Invoke_init_reinitializes (stub : Stub) (function : String)
    (hput : stub.putNeverFails) :
    Invoke stub "init" [] = Init stub "init" [] ∧
    (Invoke stub "init" []).1 = .ok none ∧
    Unmarshal ((Invoke stub "init" []).2.ledger "Vatsala") Account.zero =
      .ok ⟨"Vatsala", 1000⟩ ∧
    Unmarshal ((Invoke stub "init" []).2.ledger "Harish") Account.zero =
      .ok ⟨"Harish", 1000⟩ ∧
    Unmarshal ((Invoke stub "init" []).2.ledger "Narayan") Account.zero =
      .ok ⟨"Narayan", 1000⟩ ∧
    (Init (Init stub function []).2 function []).1 = .ok none ∧
    (Init (Init stub function []).2 function []).2.ledger = (Init stub function []).2.ledger := by
  have hinv : Invoke stub "init" [] = Init stub "init" [] := by simp [Invoke]
  have u1 : Unmarshal (some (encodeAccount ⟨"Vatsala", 1000⟩)) Account.zero =
      .ok ⟨"Vatsala", 1000⟩ := by decide
  have u2 : Unmarshal (some (encodeAccount ⟨"Harish", 1000⟩)) Account.zero =
      .ok ⟨"Harish", 1000⟩ := by decide
  have u3 : Unmarshal (some (encodeAccount ⟨"Narayan", 1000⟩)) Account.zero =
      .ok ⟨"Narayan", 1000⟩ := by decide
  have n1 : ("Vatsala" : String) ≠ "Harish" := by decide
  have n2 : ("Vatsala" : String) ≠ "Narayan" := by decide
  have n3 : ("Harish" : String) ≠ "Narayan" := by decide
  have hput1 : (Init stub function []).2.putNeverFails := by
    rw [Init_run stub function hput]
    exact hput
  refine ⟨hinv, ?_, ?_, ?_, ?_, ?_, ?_⟩
  · rw [hinv, Init_run stub "init" hput]
  · rw [hinv, Init_run stub "init" hput]
    simp only [if_neg n1, if_neg n2, if_true]; exact u1
  · rw [hinv, Init_run stub "init" hput]
    simp only [if_neg n3, if_true]; exact u2
  · rw [hinv, Init_run stub "init" hput]
    simp only [if_true]; exact u3
  · rw [Init_run _ function hput1]
  · rw [Init_run _ function hput1, Init_run stub function hput]
    funext k
    by_cases h3 : k = "Narayan"
    · simp only [h3, if_true]
    · by_cases h2 : k = "Harish"
      · simp only [h3, h2, if_true, if_false]
      · by_cases h1 : k = "Vatsala"
        · simp only [h3, h2, h1, if_true, if_false]
        · simp only [h3, h2, h1, if_false]

/-- C18, on a ledger where `Vatsala` has been overwritten with text that is no account:
`Invoke` of `init` puts the seed record back, and a second run changes nothing. -/
theorem Invoke_init_reinitializes_witness :
    (write stubEmpty ["Vatsala", "spent"]).2.putNeverFails ∧
    (write stubEmpty ["Vatsala", "spent"]).2.ledger "Vatsala" = some "spent".toList ∧
    (Invoke (write stubEmpty ["Vatsala", "spent"]).2 "init" []).1 = .ok none ∧
    Unmarshal ((Invoke (write stubEmpty ["Vatsala", "spent"]).2 "init" []).2.ledger "Vatsala")
      Account.zero = .ok ⟨"Vatsala", 1000⟩ ∧
    (Init (Init (write stubEmpty ["Vatsala", "spent"]).2 "init" []).2 "init" []).2.ledger =
      (Init (write stubEmpty ["Vatsala", "spent"]).2 "init" []).2.ledger := by
  have hp : (write stubEmpty ["Vatsala", "spent"]).2.putNeverFails := fun _ _ _ => rfl
  have h := Invoke_init_reinitializes (write stubEmpty ["Vatsala", "spent"]).2 "init" hp
  exact ⟨hp, by decide, h.2.1, h.2.2.1, h.2.2.2.2.2.2⟩

end Chaincode
